import Mathlib

/-! # asynclogger: a shallow embedding of `logger.go`

The Go package keeps one process-wide `*Logger`.  A logger owns a
writer, a buffered channel of `logEntry` values, a `quit` channel and a
background goroutine that encodes the entries it receives to the
writer.  `Info`, `Warn` and `Error` send without blocking and print a
diagnostic when the send is not possible; `Shutdown` closes `quit` under
a `sync.Once` and waits for the goroutine.

How the source is embedded:

* `*Logger` values are indices into `Global.heap`, in allocation order;
  `Global.defaultLogger` is the package variable of that name.
* A channel is the list of its buffered elements, oldest first, with its
  capacity.  A capacity of 0 is an unbuffered channel: a non-blocking
  send on it is taken only when the receiver is parked at its receive.
  `Logger.send` follows the run-time's order: a parked receiver first
  (the entry is handed over directly), then room in the buffer, then the
  `default` branch.
* The worker goroutine is a phase (`WorkerPhase`) and one step function
  per `select` branch and per iteration of the drain loop.  Receiving an
  entry and encoding it are one step; so is a hand-over to the parked
  worker together with the encoding that follows.
* The worker builds one `json.Encoder` before its loop.  Marshalling a
  `logEntry` built by `log` does not fail, so `Encode` fails only when
  the writer refuses the write, and the encoder then keeps that error:
  every later `Encode` of this worker returns it without writing
  (`Logger.encErr`).  Whether the writer accepts a write is an input (a
  `Bool` per step, or a function of the number of the call for a whole
  run); the error `Encode` returns is discarded by the worker.
  `Logger.out` is the list of entries written through the logger's
  writer.
* What the environment decides during one emit (clock, error of opening
  the log file, whether the worker is parked, outcome of a write) is an
  `Env`.
* `sync.Once` around `Init` is a flag, because `Init` does not block;
  around the shutdown function, which blocks in `wg.Wait()`, it has
  three states (`OnceState`).
* Concurrency is interleaving of atomic steps (`Step`): an explicit
  initialisation, an emit, a worker step, a `Shutdown` call entering the
  `Once`, that call leaving it.  Each step reads `defaultLogger` once.
  The signal goroutine of `listenForShutdown` is one more caller of
  `Shutdown`.  `Shutdown` is also given as a function, for a call that
  runs to its return while nothing else is emitted.
* `attempts`, `enqueued` and `closes` are history variables: they record
  what happened and no operation reads them.
* `make` panics on a negative size and on a size whose buffer exceeds
  what the run-time can allocate (`maxChanCap`).
-/

namespace AsyncLogger

/-! ## Data model -/

/-- In the source `LogLevel` is a string type with three constants. -/
abbrev LogLevel := String

def INFO : LogLevel := "INFO"

def WARN : LogLevel := "WARN"

def ERROR : LogLevel := "ERROR"

/-- The record sent over the channel; `Time` is the clock reading taken by `log`. -/
structure logEntry where
  Level : LogLevel
  Message : String
  Time : Nat
deriving DecidableEq, Repr

/-- Where the goroutine launched by `start` currently is.  `notStarted`:
`start` has not been called; `selecting`: at the `select` of the main loop; `draining`: inside the
`for len(l.logChan) > 0` loop of the quit branch; `exited`: returned, so
the deferred `wg.Done()` has run. -/
inductive WorkerPhase where
  | notStarted
  | selecting
  | draining
  | exited
deriving DecidableEq, Repr

/-- State of a `sync.Once` whose function may block: `running` while the
first caller is inside the function (later callers wait for it). -/
inductive OnceState where
  | fresh
  | running
  | done
deriving DecidableEq, Repr

/-- The `Logger` struct. `out` lists the entries the encoder has written
to the writer; `logChan` is the channel buffer and `cap` its capacity;
`quit` tells whether the quit channel has been closed.  The wait group
is derived from `worker` (see `Logger.wg`).  `encErr` belongs to the
worker's `json.Encoder`: true once a write has failed, after which the
encoder writes nothing more.  History variables: `attempts` (every
`Encode` call, with whether it wrote the entry), `enqueued` (every
entry whose send was taken) and `closes` (how often `close(quit)` ran). -/
structure Logger where
  out : List logEntry
  logChan : List logEntry
  cap : Nat
  quit : Bool
  onceClose : OnceState
  worker : WorkerPhase
  encErr : Bool
  attempts : List (logEntry × Bool)
  enqueued : List logEntry
  closes : Nat
deriving DecidableEq, Repr

/-- Counter of the wait group: one while the goroutine has not returned. -/
def Logger.wg (l : Logger) : Nat :=
  match l.worker with
  | .selecting => 1
  | .draining => 1
  | _ => 0

/-- A line printed with `fmt.Println`, outside the logging pipeline. -/
inductive Diagnostic where
  | initFailed (err : String)
  | notInitialized
  | bufferFull (entry : logEntry)
deriving DecidableEq, Repr

/-- Package-level state: the loggers allocated so far, the
`defaultLogger` pointer, the `onceInit` guard (true once it has run)
and standard output. -/
structure Global where
  heap : List Logger
  defaultLogger : Option Nat
  onceInit : Bool
  stdout : List Diagnostic
deriving DecidableEq, Repr

/-- State of a freshly loaded package. -/
def Global.initial : Global :=
  { heap := [], defaultLogger := none, onceInit := false, stdout := [] }

/-- Package variable `defaultBufSize`; nothing assigns to it. -/
def defaultBufSize : Int := 100

/-- What the environment decides during one emit: the error of opening
the log file should `Init` run, the clock, whether the worker is parked
at its receive, and whether the writer accepts a write made for a
record handed to the parked worker. -/
structure Env where
  openErr : Option String
  now : Nat
  parked : Bool
  writeOk : Bool
deriving DecidableEq, Repr

/-! ## The worker goroutine -/

/-- One call `encoder.Encode(entry)`; `ok` tells whether the writer
accepts the write, should one be made.  An encoder that has kept an
error returns it at once; otherwise the entry is written, and a refused
write leaves its error in the encoder.  The caller discards the result. -/
def Logger.Encode (ok : Bool) (entry : logEntry) (l : Logger) : Logger :=
  if l.encErr then { l with attempts := l.attempts ++ [(entry, false)] }
  else if ok then { l with out := l.out ++ [entry], attempts := l.attempts ++ [(entry, true)] }
  else { l with encErr := true, attempts := l.attempts ++ [(entry, false)] }

/-- The struct literal of `InitWithBufferSize`, before `start`. -/
def newLogger (bufferSize : Nat) : Logger :=
  { out := []
    logChan := []
    cap := bufferSize
    quit := false
    onceClose := .fresh
    worker := .notStarted
    encErr := false
    attempts := []
    enqueued := []
    closes := 0 }

/-- Method `start`: `wg.Add(1)` and launch the goroutine, which builds
its encoder and goes to its `select`. -/
def Logger.start (l : Logger) : Logger :=
  { l with worker := .selecting, encErr := false }

/-- Branch `case entry := <-l.logChan` of the main loop. -/
def Logger.recvBranch (ok : Bool) (l : Logger) : Option Logger :=
  match l.worker, l.logChan with
  | .selecting, entry :: rest => some (Logger.Encode ok entry { l with logChan := rest })
  | _, _ => none

/-- Branch `case <-l.quit` of the main loop: taken only once `quit` is closed. -/
def Logger.quitBranch (l : Logger) : Option Logger :=
  match l.worker, l.quit with
  | .selecting, true => some { l with worker := .draining }
  | _, _ => none

/-- One evaluation of `len(l.logChan) > 0` in the quit branch: either
receive and encode one entry, or leave the loop and return. -/
def Logger.drainStep (ok : Bool) (l : Logger) : Option Logger :=
  match l.worker, l.logChan with
  | .draining, entry :: rest => some (Logger.Encode ok entry { l with logChan := rest })
  | .draining, [] => some { l with worker := .exited }
  | _, _ => none

/-- A step of the worker goroutine. -/
inductive Logger.WorkerStep : Logger → Logger → Prop where
  | recv (ok : Bool) {l l1 : Logger} : l.recvBranch ok = some l1 → Logger.WorkerStep l l1
  | quit {l l1 : Logger} : l.quitBranch = some l1 → Logger.WorkerStep l l1
  | drain (ok : Bool) {l l1 : Logger} : l.drainStep ok = some l1 → Logger.WorkerStep l l1

/-- The drain loop run to its end on the buffered entries `queue`;
`writeOk n` tells whether the writer accepts a write made by the
`Encode` call numbered `n` (counting every call of this logger). -/
def Logger.drainAll (writeOk : Nat → Bool) : List logEntry → Logger → Logger
  | [], l => { l with logChan := [] }
  | entry :: rest, l =>
    Logger.drainAll writeOk rest
      (Logger.Encode (writeOk l.attempts.length) entry { l with logChan := rest })

/-- The goroutine run until it returns, as `wg.Wait()` observes it when
nothing else is sent meanwhile.  From the `select` it returns only
through the quit branch, so only once `quit` is closed; with `quit` open
it never returns and the state is left as it is. -/
def Logger.runToExit (writeOk : Nat → Bool) (l : Logger) : Logger :=
  match l.worker, l.quit with
  | .selecting, true => { Logger.drainAll writeOk l.logChan l with worker := .exited }
  | .draining, _ => { Logger.drainAll writeOk l.logChan l with worker := .exited }
  | _, _ => l

/-! ## Initialisation -/

/-- Result of `InitWithBufferSize`: `nil`, the error of opening the log
file, or the run-time panic of `make` on a size out of range. -/
inductive InitResult where
  | ok
  | failed (err : String)
  | panicked
deriving DecidableEq, Repr

/-- `GetDateBasedLogFile`: whether the directory and the dated file can be
created and opened is decided by the environment; the result is the
error, if any.  The opened file is the `out` of the logger built on it. -/
def GetDateBasedLogFile (openErr : Option String) : Option String :=
  openErr

/-- `listenForShutdown` launches a goroutine that waits for SIGINT or
SIGTERM and then calls `Shutdown` before ending the process; it changes
no package state.  Its `Shutdown` call is one of the calls of `Step`. -/
def listenForShutdown (g : Global) : Global :=
  g

/-- Largest capacity `make(chan logEntry, n)` accepts.  The run-time
panics when the buffer would exceed `maxAlloc` less the channel header
(2^48 and 96 bytes on 64-bit Linux); a `logEntry` takes 56 bytes (two
strings and a `time.Time`). -/
def maxChanCap : Nat := (2 ^ 48 - 96) / 56

/-- `InitWithBufferSize`: open the file, build the logger, make it the
default one, start its worker.  `make` panics on a negative size and on
a size beyond `maxChanCap`. -/
def InitWithBufferSize (openErr : Option String) (bufferSize : Int) (g : Global) :
    Global × InitResult :=
  match GetDateBasedLogFile openErr with
  | some err => (g, .failed err)
  | none =>
    if bufferSize < 0 then (g, .panicked)
    else if maxChanCap < bufferSize.toNat then (g, .panicked)
    else
      let logger := newLogger bufferSize.toNat
      (listenForShutdown
        { g with heap := g.heap ++ [logger.start], defaultLogger := some g.heap.length }, .ok)

/-- `Init`: `InitWithBufferSize(defaultBufSize)`. -/
def Init (openErr : Option String) (g : Global) : Global × InitResult :=
  InitWithBufferSize openErr defaultBufSize g

/-- `ensureInit`: `onceInit.Do` runs `Init` unless the guard has already run. -/
def ensureInit (openErr : Option String) (g : Global) : Global :=
  if g.onceInit then g
  else
    match Init openErr g with
    | (g1, .failed err) => { g1 with onceInit := true, stdout := g1.stdout ++ [.initFailed err] }
    | (g1, _) => { g1 with onceInit := true }

/-! ## Emitting -/

/-- The `strings.Builder` loop of `log`; `Sprint` renders one argument. -/
def buildMessage {α : Type} (Sprint : α → String) (msg : String) (args : List α) : String :=
  args.foldl (fun sb arg => (sb ++ " ") ++ Sprint arg) msg

/-- A buffered send that finds room: the entry goes to the back of the buffer. -/
def Logger.push (entry : logEntry) (l : Logger) : Logger :=
  { l with logChan := l.logChan ++ [entry], enqueued := l.enqueued ++ [entry] }

/-- The `select` of `log`, with its send and its `default`.  As in the
run-time's non-blocking send: if the receiver is parked at its receive
(which needs the worker at its `select`, `quit` open and an empty
buffer) the entry is handed to it, and is encoded at once (`ok` as in
`Logger.Encode`); else if the buffer has room the entry is appended;
else `none`, the `default` branch.  `parked` is the environment's word
on whether the goroutine has reached its receive; it is ignored when
the state excludes it. -/
def Logger.send (parked ok : Bool) (entry : logEntry) (l : Logger) : Option Logger :=
  if parked = true ∧ l.worker = .selecting ∧ l.quit = false ∧ l.logChan = [] then
    some (Logger.Encode ok entry { l with enqueued := l.enqueued ++ [entry] })
  else if l.logChan.length < l.cap then
    some (l.push entry)
  else none

/-- Function `log`: run `ensureInit`; without a default logger print the
"not initialized" line and return; else build the entry (message from
the builder loop, level as passed, time from the clock) and try the
send, printing the "buffer full" line when the `default` branch is
taken.  A `defaultLogger` that points outside the heap does not occur
(`Global.Inv`); the state is then left as it is. -/
def log {α : Type} (Sprint : α → String) (env : Env) (level : LogLevel) (msg : String)
    (args : List α) (g : Global) : Global :=
  let g1 := ensureInit env.openErr g
  match g1.defaultLogger with
  | none => { g1 with stdout := g1.stdout ++ [.notInitialized] }
  | some p =>
    match g1.heap[p]? with
    | none => g1
    | some l =>
      let entry : logEntry :=
        { Level := level, Time := env.now, Message := buildMessage Sprint msg args }
      match l.send env.parked env.writeOk entry with
      | some l1 => { g1 with heap := g1.heap.set p l1 }
      | none => { g1 with stdout := g1.stdout ++ [.bufferFull entry] }

/-- `Info`, `Warn`, `Error`: `log` at the level of that name. -/
def Info {α : Type} (Sprint : α → String) (env : Env) (msg : String) (args : List α)
    (g : Global) : Global :=
  log Sprint env INFO msg args g

def Warn {α : Type} (Sprint : α → String) (env : Env) (msg : String) (args : List α)
    (g : Global) : Global :=
  log Sprint env WARN msg args g

def Error {α : Type} (Sprint : α → String) (env : Env) (msg : String) (args : List α)
    (g : Global) : Global :=
  log Sprint env ERROR msg args g

/-- A few dynamic values with their `fmt.Sprint` rendering. -/
inductive GoValue where
  | int (i : Int)
  | str (s : String)
  | bool (b : Bool)
deriving DecidableEq, Repr

/-- `fmt.Sprint` of one such value. -/
def GoValue.Sprint : GoValue → String
  | .int i => toString i
  | .str s => s
  | .bool true => "true"
  | .bool false => "false"

/-! ## Shutdown -/

/-- Entering `onceClose.Do` first: `close(quit)`, then the caller waits on the wait group. -/
def Logger.closeQuit (l : Logger) : Logger :=
  { l with quit := true, closes := l.closes + 1, onceClose := .running }

/-- The call `l.onceClose.Do(...)` of `Shutdown`, run to its return while
nothing is emitted: the first call closes `quit` and waits for the
worker; a call arriving while another is inside the `Once` returns when
that one has finished; a later call returns at once. -/
def Logger.onceCloseDo (writeOk : Nat → Bool) (l : Logger) : Logger :=
  match l.onceClose with
  | .done => l
  | .fresh => { l.closeQuit.runToExit writeOk with onceClose := .done }
  | .running => { l.runToExit writeOk with onceClose := .done }

/-- `Shutdown`: nothing without a default logger, else its `onceClose.Do`. -/
def Shutdown (writeOk : Nat → Bool) (g : Global) : Global :=
  match g.defaultLogger with
  | none => g
  | some p =>
    match g.heap[p]? with
    | none => g
    | some l => { g with heap := g.heap.set p (l.onceCloseDo writeOk) }

/-! ## Interleavings -/

/-- One atomic step of the package: an explicit initialisation, an emit,
a step of some logger's worker, a `Shutdown` call entering the `Once`
(closing `quit`), or that call leaving it after the worker returned. -/
inductive Step : Global → Global → Prop where
  | init (openErr : Option String) (bufferSize : Int) (g : Global) :
      Step g (InitWithBufferSize openErr bufferSize g).1
  | emit {α : Type} (Sprint : α → String) (env : Env) (level : LogLevel) (msg : String)
      (args : List α) (g : Global) : Step g (log Sprint env level msg args g)
  | worker {g : Global} {p : Nat} {l l1 : Logger} :
      g.heap[p]? = some l → Logger.WorkerStep l l1 → Step g { g with heap := g.heap.set p l1 }
  | closeBegin {g : Global} {p : Nat} {l : Logger} :
      g.defaultLogger = some p → g.heap[p]? = some l → l.onceClose = .fresh →
      Step g { g with heap := g.heap.set p l.closeQuit }
  | closeEnd {g : Global} {p : Nat} {l : Logger} :
      g.heap[p]? = some l → l.onceClose = .running → l.wg = 0 →
      Step g { g with heap := g.heap.set p { l with onceClose := .done } }

/-- States the package can be in. -/
def Reachable (g : Global) : Prop :=
  Relation.ReflTransGen Step Global.initial g

/-- Everything that can happen to one logger in one atomic step of the package. -/
inductive Logger.Move : Logger → Logger → Prop where
  | worker {l l1 : Logger} : Logger.WorkerStep l l1 → Logger.Move l l1
  | send (parked ok : Bool) (entry : logEntry) {l l1 : Logger} :
      l.send parked ok entry = some l1 → Logger.Move l l1
  | closeBegin {l : Logger} : l.onceClose = .fresh → Logger.Move l l.closeQuit
  | closeEnd {l : Logger} : l.onceClose = .running → l.wg = 0 →
      Logger.Move l { l with onceClose := .done }

/-! ## The worker run to its end -/

/-- Entries `queue` with, for each, whether its `Encode` call wrote it.
`latched` tells whether the encoder holds an error before the first of
them, `n` is the number of that first call and `writeOk k` tells whether
the writer accepts a write made by call number `k`. -/
def outcomes (writeOk : Nat → Bool) : Bool → Nat → List logEntry → List (logEntry × Bool)
  | _, _, [] => []
  | latched, n, entry :: rest =>
    (entry, !latched && writeOk n) :: outcomes writeOk (latched || !writeOk n) (n + 1) rest

/-- Whether the encoder holds an error after `Encode` has been called on each entry of `queue`. -/
def latchedAfter (writeOk : Nat → Bool) : Bool → Nat → List logEntry → Bool
  | latched, _, [] => latched
  | latched, n, _ :: rest => latchedAfter writeOk (latched || !writeOk n) (n + 1) rest

/-- The entries at the front of `queue` up to the first write the writer refuses. -/
def acceptedPrefix (writeOk : Nat → Bool) : Nat → List logEntry → List logEntry
  | _, [] => []
  | n, entry :: rest => if writeOk n then entry :: acceptedPrefix writeOk (n + 1) rest else []

/-- Each entry of `queue` paired with what the writer would answer to
its write, as if every write were made: the pattern of failing writes
taken record by record. -/
def patternOutcomes (writeOk : Nat → Bool) : Nat → List logEntry → List (logEntry × Bool)
  | _, [] => []
  | n, entry :: rest => (entry, writeOk n) :: patternOutcomes writeOk (n + 1) rest

/-- Entries of a list of `Encode` calls that were written. -/
def written (attempts : List (logEntry × Bool)) : List logEntry :=
  (attempts.filter (fun a => a.2)).map Prod.fst

/-- A worker step in which the writer answers as `writeOk` prescribes. -/
inductive Logger.WorkerStepW (writeOk : Nat → Bool) : Logger → Logger → Prop where
  | recv {l l1 : Logger} :
      l.recvBranch (writeOk l.attempts.length) = some l1 → Logger.WorkerStepW writeOk l l1
  | quit {l l1 : Logger} : l.quitBranch = some l1 → Logger.WorkerStepW writeOk l l1
  | drain {l l1 : Logger} :
      l.drainStep (writeOk l.attempts.length) = some l1 → Logger.WorkerStepW writeOk l l1

/-- Work left for the worker: decreases with every worker step. -/
def Logger.workLeft (l : Logger) : Nat :=
  2 * l.logChan.length +
    (match l.worker with
     | .selecting => 2
     | .draining => 1
     | _ => 0)

/-! ## Racing `Shutdown` calls end in the state of a single call -/

/-- What can happen to one logger while `Shutdown` calls race with each
other and with the worker and nothing is emitted: a worker step (write
outcomes given by `writeOk`), a call entering the `Once`, a call
leaving it. -/
inductive Logger.QuietMove (writeOk : Nat → Bool) : Logger → Logger → Prop where
  | worker {l l1 : Logger} : Logger.WorkerStepW writeOk l l1 → Logger.QuietMove writeOk l l1
  | closeBegin {l : Logger} : l.onceClose = .fresh → Logger.QuietMove writeOk l l.closeQuit
  | closeEnd {l : Logger} : l.onceClose = .running → l.wg = 0 →
      Logger.QuietMove writeOk l { l with onceClose := .done }

/-! ## Invariants of a logger -/

/-- What holds of every logger the package has allocated. -/
structure Logger.Inv (l : Logger) : Prop where
  fifo : l.attempts.map Prod.fst ++ l.logChan = l.enqueued
  sink : l.out = (l.attempts.filter (fun a => a.2)).map Prod.fst
  latch : l.encErr = l.attempts.any (fun a => !a.2)
  bounded : l.logChan.length ≤ l.cap
  started : l.worker ≠ .notStarted
  freshOpen : l.onceClose = .fresh → l.quit = false ∧ l.closes = 0
  enteredClosed : l.onceClose ≠ .fresh → l.quit = true ∧ l.closes = 1
  openSelecting : l.quit = false → l.worker = .selecting
  doneExited : l.onceClose = .done → l.worker = .exited

/-- Invariant of the package state: every allocated logger satisfies
`Logger.Inv`, `defaultLogger` points into the heap, and nothing has been
sent to any logger while the `onceInit` guard has not run. -/
structure Global.Inv (g : Global) : Prop where
  loggers : ∀ l ∈ g.heap, Logger.Inv l
  valid : ∀ p, g.defaultLogger = some p → p < g.heap.length
  guarded : g.onceInit = false → ∀ l ∈ g.heap, l.enqueued = []

/-! ## Record content -/

/-- The text the specification gives for the arguments: for each one, in
order, one space and its rendering. -/
def specSuffix {α : Type} (Sprint : α → String) : List α → String
  | [] => ""
  | arg :: rest => (" " ++ Sprint arg) ++ specSuffix Sprint rest

/-- The message as the specification words it: the base message followed by `specSuffix`. -/
def specMessage {α : Type} (Sprint : α → String) (msg : String) (args : List α) : String :=
  msg ++ specSuffix Sprint args

/-! ## Sequences of emits -/

/-- One call of `log`: what the caller passes and what the environment decides. -/
structure Call (α : Type) where
  env : Env
  level : LogLevel
  msg : String
  args : List α

/-- The record `log` builds for a call. -/
def Call.entry {α : Type} (Sprint : α → String) (c : Call α) : logEntry :=
  { Level := c.level, Time := c.env.now, Message := buildMessage Sprint c.msg c.args }

/-- A sequence of emits, one after the other, with no other step in between. -/
def emitAll {α : Type} (Sprint : α → String) (calls : List (Call α)) (g : Global) : Global :=
  calls.foldl (fun g c => log Sprint c.env c.level c.msg c.args g) g

/-- The state in which the first emit of a sequence reaches its send:
the state left by its `ensureInit` (the state itself when there is no emit). -/
def burstStart {α : Type} (calls : List (Call α)) (g : Global) : Global :=
  match calls with
  | [] => g
  | c :: _ => ensureInit c.env.openErr g

/-- Several buffered sends that all find room. -/
def Logger.pushMany (entries : List logEntry) (l : Logger) : Logger :=
  { l with logChan := l.logChan ++ entries, enqueued := l.enqueued ++ entries }

/-- A writer that accepts every write. -/
def allOk : Nat → Bool := fun _ => true

/-! ## Concrete environments and states used as examples -/

/-- An emit at time `now` for which the log file opens, the worker is not
parked at its receive and a write would succeed. -/
def Env.quiet (now : Nat) : Env :=
  { openErr := none, now := now, parked := false, writeOk := true }

/-- As `Env.quiet`, with the worker parked at its receive. -/
def Env.handOff (now : Nat) : Env :=
  { openErr := none, now := now, parked := true, writeOk := true }

/-- An emit during which the log file cannot be opened. -/
def Env.noFile (now : Nat) : Env :=
  { openErr := some "permission denied", now := now, parked := false, writeOk := true }

/-- No auxiliary values. -/
def noArgs : List GoValue := []

/-- The package after a first emit that initialised it lazily. -/
def afterFirstEmit : Global :=
  Info GoValue.Sprint (Env.quiet 0) "boot" noArgs Global.initial

/-- The logger of `afterFirstEmit`: capacity 100, the record waits in the buffer. -/
def bootLogger : Logger :=
  (newLogger 100).start.push ⟨"INFO", "boot", 0⟩

/-- The package after a first emit whose lazy initialisation failed. -/
def afterFailedInit : Global :=
  Info GoValue.Sprint (Env.noFile 0) "boot" noArgs Global.initial

/-- An explicit `InitWithBufferSize(n)` on a freshly loaded package. -/
def explicitOnly (n : Int) : Global :=
  (InitWithBufferSize none n Global.initial).1

/-- An explicit `InitWithBufferSize(n)` made after the first emit. -/
def explicitLater (n : Int) : Global :=
  (InitWithBufferSize none n afterFirstEmit).1

/-- Three emits A, B, C in a row while the worker is idle. -/
def burstABC : List (Call GoValue) :=
  [ { env := Env.quiet 1, level := INFO, msg := "A", args := [] },
    { env := Env.quiet 2, level := INFO, msg := "B", args := [] },
    { env := Env.quiet 3, level := INFO, msg := "C", args := [] } ]

/-- The package after one emit "A" on a freshly loaded package. -/
def queuedA : Global :=
  Info GoValue.Sprint (Env.quiet 1) "A" noArgs Global.initial

/-- The logger of `queuedA`: record A waits in the buffer. -/
def queuedALogger : Logger :=
  (newLogger 100).start.push ⟨"INFO", "A", 1⟩

/-- That logger after its worker received A and `Encode` failed. -/
def failedALogger : Logger :=
  Logger.Encode false ⟨"INFO", "A", 1⟩ { queuedALogger with logChan := [] }

/-- The package after that failed write. -/
def lostWrite : Global :=
  { queuedA with heap := queuedA.heap.set 0 failedALogger }

/-- A running logger with A, B, C buffered. -/
def threeQueued : Logger :=
  (newLogger 3).start.pushMany [⟨"INFO", "A", 1⟩, ⟨"WARN", "B", 2⟩, ⟨"ERROR", "C", 3⟩]

/-- A writer that refuses the write of the second `Encode` call only. -/
def secondFails : Nat → Bool := fun n => n != 1

/-- The package after the first emit and a completed `Shutdown`. -/
def afterShutdown : Global :=
  Shutdown allOk afterFirstEmit

/-- The logger of `afterShutdown`: drained, latch done, worker returned. -/
def shutLogger : Logger :=
  { out := [⟨"INFO", "boot", 0⟩]
    logChan := []
    cap := 100
    quit := true
    onceClose := .done
    worker := .exited
    encErr := false
    attempts := [(⟨"INFO", "boot", 0⟩, true)]
    enqueued := [⟨"INFO", "boot", 0⟩]
    closes := 1 }

/-- Capacity 2, set explicitly after the first emit, with A and B emitted since. -/
def twoQueued : Global :=
  Info GoValue.Sprint (Env.quiet 2) "B" noArgs
    (Info GoValue.Sprint (Env.quiet 1) "A" noArgs (explicitLater 2))

/-- The process-wide logger of `twoQueued`: its buffer is full. -/
def twoQueuedLogger : Logger :=
  (newLogger 2).start.pushMany [⟨"INFO", "A", 1⟩, ⟨"INFO", "B", 2⟩]

/-- The first emit, then an explicit `InitWithBufferSize(2)`, then a completed `Shutdown`. -/
def replacedThenShutdown : Global :=
  Shutdown allOk (explicitLater 2)

/-- The first emit, a completed `Shutdown`, an emit "late" and a second `Shutdown`. -/
def lateThenShutdown : Global :=
  Shutdown allOk (Info GoValue.Sprint (Env.quiet 9) "late" noArgs afterShutdown)

/-- An explicit `InitWithBufferSize(2)` on a freshly loaded package, then a completed `Shutdown`. -/
def explicitShutdown : Global :=
  Shutdown allOk (explicitOnly 2)

/-- An emit "late" made in `explicitShutdown`. -/
def lateEmit : Global :=
  Info GoValue.Sprint (Env.quiet 9) "late" noArgs explicitShutdown

/-- The logger `lateEmit` sends to: the one its lazy initialisation built. -/
def lateLogger : Logger :=
  (newLogger 100).start.push ⟨"INFO", "late", 9⟩

/-- That logger after its worker received "late" and wrote it. -/
def lateWrittenLogger : Logger :=
  Logger.Encode true ⟨"INFO", "late", 9⟩ { lateLogger with logChan := [] }

/-- The package after that write. -/
def lateWritten : Global :=
  { lateEmit with heap := lateEmit.heap.set 1 lateWrittenLogger }

/-! # Theorems -/

/-! ## Invariants of a logger -/

theorem Logger.inv_start (n : Nat) : Logger.Inv (newLogger n).start := by
  constructor <;> simp [newLogger, Logger.start]

theorem Logger.Encode_eq (ok : Bool) (entry : logEntry) (l : Logger) :
    Logger.Encode ok entry l =
      { l with
        out := if (!l.encErr && ok) = true then l.out ++ [entry] else l.out
        encErr := l.encErr || !ok
        attempts := l.attempts ++ [(entry, !l.encErr && ok)] } := by
  unfold Logger.Encode
  cases h : l.encErr <;> cases ok <;> simp [h]

@[simp]
theorem Logger.Encode_logChan (ok : Bool) (entry : logEntry) (l : Logger) :
    (Logger.Encode ok entry l).logChan = l.logChan := by
  rw [Logger.Encode_eq]

@[simp]
theorem Logger.Encode_enqueued (ok : Bool) (entry : logEntry) (l : Logger) :
    (Logger.Encode ok entry l).enqueued = l.enqueued := by
  rw [Logger.Encode_eq]

@[simp]
theorem Logger.Encode_worker (ok : Bool) (entry : logEntry) (l : Logger) :
    (Logger.Encode ok entry l).worker = l.worker := by
  rw [Logger.Encode_eq]

@[simp]
theorem Logger.Encode_quit (ok : Bool) (entry : logEntry) (l : Logger) :
    (Logger.Encode ok entry l).quit = l.quit := by
  rw [Logger.Encode_eq]

@[simp]
theorem Logger.Encode_onceClose (ok : Bool) (entry : logEntry) (l : Logger) :
    (Logger.Encode ok entry l).onceClose = l.onceClose := by
  rw [Logger.Encode_eq]

@[simp]
theorem Logger.Encode_cap (ok : Bool) (entry : logEntry) (l : Logger) :
    (Logger.Encode ok entry l).cap = l.cap := by
  rw [Logger.Encode_eq]

@[simp]
theorem Logger.Encode_closes (ok : Bool) (entry : logEntry) (l : Logger) :
    (Logger.Encode ok entry l).closes = l.closes := by
  rw [Logger.Encode_eq]

@[simp]
theorem Logger.Encode_attempts_length (ok : Bool) (entry : logEntry) (l : Logger) :
    (Logger.Encode ok entry l).attempts.length = l.attempts.length + 1 := by
  rw [Logger.Encode_eq]
  simp

theorem Logger.inv_Encode_pop {l : Logger} (h : Logger.Inv l) (ok : Bool) (entry : logEntry)
    (rest : List logEntry) (hq : l.logChan = entry :: rest) :
    Logger.Inv (Logger.Encode ok entry { l with logChan := rest }) := by
  obtain ⟨h1, h2, hlatch, h3, h4, h5, h6, h7, h8⟩ := h
  rw [Logger.Encode_eq]
  constructor
  · simp [← h1, hq]
  · cases ok <;> cases l.encErr <;> simp [h2, List.filter_append]
  · cases ok <;> cases he : l.encErr <;> simp [← hlatch, he]
  · simp; rw [hq] at h3; simp at h3; omega
  · simpa using h4
  · simpa using h5
  · simpa using h6
  · simpa using h7
  · simpa using h8

theorem Logger.inv_recvBranch {l l1 : Logger} (h : Logger.Inv l) (ok : Bool)
    (hs : l.recvBranch ok = some l1) : Logger.Inv l1 := by
  unfold Logger.recvBranch at hs
  split at hs
  · next entry rest hw hq =>
    simp only [Option.some.injEq] at hs
    subst hs
    exact Logger.inv_Encode_pop h ok entry rest hq
  · simp at hs

theorem Logger.inv_quitBranch {l l1 : Logger} (h : Logger.Inv l)
    (hs : l.quitBranch = some l1) : Logger.Inv l1 := by
  unfold Logger.quitBranch at hs
  split at hs
  · next hw hq =>
    simp only [Option.some.injEq] at hs
    subst hs
    obtain ⟨h1, h2, hlatch, h3, h4, h5, h6, h7, h8⟩ := h
    constructor
    · exact h1
    · exact h2
    · exact hlatch
    · exact h3
    · simp
    · exact h5
    · exact h6
    · intro hq2; simp [hq] at hq2
    · intro hd; have := h8 hd; simp [hw] at this
  · simp at hs

theorem Logger.inv_drainStep {l l1 : Logger} (h : Logger.Inv l) (ok : Bool)
    (hs : l.drainStep ok = some l1) : Logger.Inv l1 := by
  unfold Logger.drainStep at hs
  split at hs
  · next entry rest hw hq =>
    simp only [Option.some.injEq] at hs
    subst hs
    exact Logger.inv_Encode_pop h ok entry rest hq
  · next hw hq =>
    simp only [Option.some.injEq] at hs
    subst hs
    obtain ⟨h1, h2, hlatch, h3, h4, h5, h6, h7, h8⟩ := h
    constructor
    · exact h1
    · exact h2
    · exact hlatch
    · exact h3
    · simp
    · exact h5
    · exact h6
    · intro hq2; have := h7 hq2; simp [hw] at this
    · intro _; rfl
  · simp at hs

theorem Logger.inv_workerStep {l l1 : Logger} (h : Logger.Inv l)
    (hs : Logger.WorkerStep l l1) : Logger.Inv l1 := by
  cases hs with
  | recv ok hs => exact Logger.inv_recvBranch h ok hs
  | quit hs => exact Logger.inv_quitBranch h hs
  | drain ok hs => exact Logger.inv_drainStep h ok hs

theorem Logger.inv_send {l l1 : Logger} (h : Logger.Inv l) (parked ok : Bool)
    (entry : logEntry) (hs : l.send parked ok entry = some l1) : Logger.Inv l1 := by
  obtain ⟨h1, h2, hlatch, h3, h4, h5, h6, h7, h8⟩ := h
  unfold Logger.send at hs
  split at hs
  · next hc =>
    simp only [Option.some.injEq] at hs
    subst hs
    obtain ⟨_, hw, hq, hc⟩ := hc
    rw [Logger.Encode_eq]
    constructor
    · simp [← h1, hc]
    · cases ok <;> cases l.encErr <;> simp [h2, List.filter_append]
    · cases ok <;> cases he : l.encErr <;> simp [← hlatch, he]
    · simpa using h3
    · simpa using h4
    · simpa using h5
    · simpa using h6
    · simpa using h7
    · simpa using h8
  · split at hs
    · next hlt =>
      simp only [Option.some.injEq] at hs
      subst hs
      constructor
      · simp [Logger.push, ← h1]
      · exact h2
      · exact hlatch
      · simp [Logger.push]; omega
      · exact h4
      · exact h5
      · exact h6
      · exact h7
      · exact h8
    · simp at hs

theorem Logger.inv_closeQuit {l : Logger} (h : Logger.Inv l) (hf : l.onceClose = .fresh) :
    Logger.Inv l.closeQuit := by
  obtain ⟨h1, h2, hlatch, h3, h4, h5, h6, h7, h8⟩ := h
  constructor
  · exact h1
  · exact h2
  · exact hlatch
  · exact h3
  · exact h4
  · simp [Logger.closeQuit]
  · simp [Logger.closeQuit, (h5 hf).2]
  · simp [Logger.closeQuit]
  · simp [Logger.closeQuit]

theorem Logger.wg_eq_zero {l : Logger} (h : l.worker ≠ .notStarted) (hz : l.wg = 0) :
    l.worker = .exited := by
  unfold Logger.wg at hz
  cases hw : l.worker <;> simp_all

theorem Logger.inv_closeEnd {l : Logger} (h : Logger.Inv l) (hr : l.onceClose = .running)
    (hz : l.wg = 0) : Logger.Inv { l with onceClose := .done } := by
  obtain ⟨h1, h2, hlatch, h3, h4, h5, h6, h7, h8⟩ := h
  constructor
  · exact h1
  · exact h2
  · exact hlatch
  · exact h3
  · exact h4
  · simp
  · intro _; exact h6 (by simp [hr])
  · exact h7
  · intro _; exact Logger.wg_eq_zero h4 hz

/-! ## Invariants of the package state -/

theorem Global.inv_initial : Global.Inv Global.initial := by
  constructor <;> simp [Global.initial]

theorem Global.inv_set {g : Global} (h : Global.Inv g) (p : Nat) {l1 : Logger}
    (h1 : Logger.Inv l1) (h2 : g.onceInit = false → l1.enqueued = []) :
    Global.Inv { g with heap := g.heap.set p l1 } := by
  constructor
  · intro l hl
    rcases List.mem_or_eq_of_mem_set hl with hm | he
    · exact h.loggers l hm
    · exact he ▸ h1
  · intro q hq
    simpa using h.valid q hq
  · intro hg l hl
    rcases List.mem_or_eq_of_mem_set hl with hm | he
    · exact h.guarded hg l hm
    · exact he ▸ h2 hg

theorem Global.inv_stdout {g : Global} (h : Global.Inv g) (out : List Diagnostic) :
    Global.Inv { g with stdout := out } :=
  ⟨h.loggers, h.valid, h.guarded⟩

theorem Global.inv_InitWithBufferSize {g : Global} (h : Global.Inv g)
    (openErr : Option String) (bufferSize : Int) :
    Global.Inv (InitWithBufferSize openErr bufferSize g).1 := by
  unfold InitWithBufferSize listenForShutdown GetDateBasedLogFile
  split
  · exact h
  · split
    · exact h
    · split
      · exact h
      · constructor
        · intro l hl
          simp only [List.mem_append, List.mem_singleton] at hl
          rcases hl with hm | he
          · exact h.loggers l hm
          · exact he ▸ Logger.inv_start _
        · intro q hq
          simp only [Option.some.injEq] at hq
          simp [← hq]
        · intro hg l hl
          simp only [List.mem_append, List.mem_singleton] at hl
          rcases hl with hm | he
          · exact h.guarded hg l hm
          · rw [he]
            rfl

theorem ensureInit_onceInit (openErr : Option String) (g : Global) :
    (ensureInit openErr g).onceInit = true := by
  unfold ensureInit
  split
  · assumption
  · split <;> rfl

theorem Global.inv_ensureInit {g : Global} (h : Global.Inv g) (openErr : Option String) :
    Global.Inv (ensureInit openErr g) := by
  have hg := ensureInit_onceInit openErr g
  unfold ensureInit at hg ⊢
  split
  · exact h
  · have hi := Global.inv_InitWithBufferSize h openErr defaultBufSize
    unfold Init
    split
    · next g1 err heq =>
      rw [heq] at hi
      exact ⟨hi.loggers, hi.valid, fun hf => by simp at hf⟩
    · next g1 r hne heq =>
      rw [heq] at hi
      exact ⟨hi.loggers, hi.valid, fun hf => by simp at hf⟩

theorem Global.inv_log {α : Type} {g : Global} (h : Global.Inv g) (Sprint : α → String)
    (env : Env) (level : LogLevel) (msg : String) (args : List α) :
    Global.Inv (log Sprint env level msg args g) := by
  have h1 := Global.inv_ensureInit h env.openErr
  have hg := ensureInit_onceInit env.openErr g
  unfold log
  simp only
  split
  · exact Global.inv_stdout h1 _
  · next p hp =>
    split
    · exact h1
    · next l hl =>
      split
      · next l1 hs =>
        exact Global.inv_set h1 p (Logger.inv_send (h1.loggers l (List.getElem?_mem hl)) _ _ _ hs)
          (fun hf => by simp [hg] at hf)
      · exact Global.inv_stdout h1 _

theorem Logger.workerStep_enqueued {l l1 : Logger} (h : Logger.WorkerStep l l1) :
    l1.enqueued = l.enqueued := by
  cases h with
  | recv ok h =>
    unfold Logger.recvBranch at h
    split at h
    · simp only [Option.some.injEq] at h
      subst h
      simp
    · simp at h
  | quit h =>
    unfold Logger.quitBranch at h
    split at h
    · simp only [Option.some.injEq] at h
      subst h
      simp
    · simp at h
  | drain ok h =>
    unfold Logger.drainStep at h
    split at h
    · simp only [Option.some.injEq] at h
      subst h
      simp
    · simp only [Option.some.injEq] at h
      subst h
      simp
    · simp at h

theorem Global.inv_step {g g1 : Global} (h : Global.Inv g) (hs : Step g g1) : Global.Inv g1 := by
  cases hs with
  | init openErr bufferSize => exact Global.inv_InitWithBufferSize h openErr bufferSize
  | emit Sprint env level msg args => exact Global.inv_log h Sprint env level msg args
  | worker hl hw =>
    have hm := List.getElem?_mem hl
    exact Global.inv_set h _ (Logger.inv_workerStep (h.loggers _ hm) hw)
      (fun hg => by rw [Logger.workerStep_enqueued hw]; exact h.guarded hg _ hm)
  | closeBegin hd hl hf =>
    have hm := List.getElem?_mem hl
    have hx := fun hg => h.guarded hg _ hm
    exact Global.inv_set h _ (Logger.inv_closeQuit (h.loggers _ hm) hf) hx
  | closeEnd hl hr hz =>
    have hm := List.getElem?_mem hl
    have hx := fun hg => h.guarded hg _ hm
    exact Global.inv_set h _ (Logger.inv_closeEnd (h.loggers _ hm) hr hz) hx

theorem Global.inv_steps {g g1 : Global} (h : Global.Inv g)
    (hs : Relation.ReflTransGen Step g g1) : Global.Inv g1 := by
  induction hs with
  | refl => exact h
  | tail _ hstep ih => exact Global.inv_step ih hstep

theorem Reachable.inv {g : Global} (h : Reachable g) : Global.Inv g :=
  Global.inv_steps Global.inv_initial h

/-! ## The worker run to its end -/

theorem outcomes_fst (writeOk : Nat → Bool) (latched : Bool) (n : Nat)
    (queue : List logEntry) : (outcomes writeOk latched n queue).map Prod.fst = queue := by
  induction queue generalizing n latched with
  | nil => rfl
  | cons entry rest ih => simp [outcomes, ih]

theorem written_all_ok (attempts : List (logEntry × Bool)) (h : ∀ a ∈ attempts, a.2 = true) :
    written attempts = attempts.map Prod.fst := by
  unfold written
  rw [List.filter_eq_self.mpr h]

theorem written_sublist (attempts : List (logEntry × Bool)) :
    (written attempts).Sublist (attempts.map Prod.fst) := by
  unfold written
  exact (List.filter_sublist attempts).map Prod.fst

theorem outcomes_latched (writeOk : Nat → Bool) (n : Nat) (queue : List logEntry) :
    written (outcomes writeOk true n queue) = [] ∧ latchedAfter writeOk true n queue = true := by
  induction queue generalizing n with
  | nil => exact ⟨rfl, rfl⟩
  | cons entry rest ih =>
    have := ih (n + 1)
    simp [outcomes, written, latchedAfter] at this ⊢
    exact this

theorem outcomes_accepted (writeOk : Nat → Bool) (n : Nat) (queue : List logEntry) :
    written (outcomes writeOk false n queue) = acceptedPrefix writeOk n queue := by
  induction queue generalizing n with
  | nil => rfl
  | cons entry rest ih =>
    cases hok : writeOk n
    · have := (outcomes_latched writeOk (n + 1) rest).1
      simp [outcomes, written, acceptedPrefix, hok] at this ⊢
      exact this
    · have := ih (n + 1)
      simp [outcomes, written, acceptedPrefix, hok] at this ⊢
      exact this

theorem outcomes_all_ok (writeOk : Nat → Bool) (h : ∀ n, writeOk n = true) (n : Nat)
    (queue : List logEntry) :
    written (outcomes writeOk false n queue) = queue ∧
      latchedAfter writeOk false n queue = false := by
  induction queue generalizing n with
  | nil => exact ⟨rfl, rfl⟩
  | cons entry rest ih =>
    have := ih (n + 1)
    simp [outcomes, written, latchedAfter, h] at this ⊢
    exact this

theorem Logger.drainAll_eq (writeOk : Nat → Bool) (queue : List logEntry) (l : Logger) :
    Logger.drainAll writeOk queue l =
      { l with
        logChan := []
        out := l.out ++ written (outcomes writeOk l.encErr l.attempts.length queue)
        encErr := latchedAfter writeOk l.encErr l.attempts.length queue
        attempts := l.attempts ++ outcomes writeOk l.encErr l.attempts.length queue } := by
  induction queue generalizing l with
  | nil => simp [Logger.drainAll, outcomes, written, latchedAfter]
  | cons entry rest ih =>
    rw [Logger.drainAll, ih, Logger.Encode_eq]
    cases hok : writeOk l.attempts.length <;> cases he : l.encErr <;>
      simp [outcomes, written, latchedAfter, hok, he]

theorem heap_set_same {α : Type} {xs : List α} {p : Nat} {a : α} (h : xs[p]? = some a) :
    xs.set p a = xs := by
  apply List.ext_getElem?
  intro i
  rw [List.getElem?_set]
  split
  · next hip =>
    subst hip
    split
    · exact h.symm
    · next hlt =>
      rw [List.getElem?_eq_none (by omega)]
  · rfl

theorem Logger.WorkerStepW.toStep {writeOk : Nat → Bool} {l l1 : Logger}
    (h : Logger.WorkerStepW writeOk l l1) : Logger.WorkerStep l l1 := by
  cases h with
  | recv h => exact .recv _ h
  | quit h => exact .quit h
  | drain h => exact .drain _ h

theorem Logger.drain_steps (writeOk : Nat → Bool) (queue : List logEntry) (l : Logger)
    (hw : l.worker = .draining) (hq : l.logChan = queue) :
    Relation.ReflTransGen (Logger.WorkerStepW writeOk) l
      { Logger.drainAll writeOk queue l with worker := .exited } := by
  induction queue generalizing l with
  | nil =>
    apply Relation.ReflTransGen.single
    apply Logger.WorkerStepW.drain
    simp [Logger.drainStep, hw, hq, Logger.drainAll]
  | cons entry rest ih =>
    have hstep : Logger.WorkerStepW writeOk l
        (Logger.Encode (writeOk l.attempts.length) entry { l with logChan := rest }) := by
      apply Logger.WorkerStepW.drain
      simp [Logger.drainStep, hw, hq]
    refine Relation.ReflTransGen.head hstep ?_
    rw [Logger.drainAll]
    exact ih _ (by simp [hw]) (by simp)

theorem Logger.runToExit_steps (writeOk : Nat → Bool) (l : Logger) (hq : l.quit = true) :
    Relation.ReflTransGen (Logger.WorkerStepW writeOk) l (l.runToExit writeOk) := by
  unfold Logger.runToExit
  split
  · next hw _ =>
    have hstep : Logger.WorkerStepW writeOk l { l with worker := .draining } := by
      apply Logger.WorkerStepW.quit
      simp [Logger.quitBranch, hw, hq]
    refine Relation.ReflTransGen.head hstep ?_
    have := Logger.drain_steps writeOk l.logChan { l with worker := .draining } rfl rfl
    simpa [Logger.drainAll_eq] using this
  · next hw => exact Logger.drain_steps writeOk l.logChan l hw rfl
  · exact Relation.ReflTransGen.refl

theorem Logger.runToExit_of_step {writeOk : Nat → Bool} {l l1 : Logger}
    (h : Logger.WorkerStepW writeOk l l1) (hq : l.quit = true) :
    l1.runToExit writeOk = l.runToExit writeOk ∧ l1.quit = true := by
  cases h with
  | recv h =>
    unfold Logger.recvBranch at h
    split at h
    · next entry rest hw hc =>
      simp only [Option.some.injEq] at h
      subst h
      constructor
      · simp [Logger.runToExit, hw, hc, hq, Logger.drainAll]
      · simpa using hq
    · simp at h
  | quit h =>
    unfold Logger.quitBranch at h
    split at h
    · next hw hc =>
      simp only [Option.some.injEq] at h
      subst h
      constructor
      · simp [Logger.runToExit, hw, hq, Logger.drainAll_eq]
      · exact hq
    · simp at h
  | drain h =>
    unfold Logger.drainStep at h
    split at h
    · next entry rest hw hc =>
      simp only [Option.some.injEq] at h
      subst h
      constructor
      · simp [Logger.runToExit, hw, hc, hq, Logger.drainAll]
      · simpa using hq
    · next hw hc =>
      simp only [Option.some.injEq] at h
      subst h
      constructor
      · simp [Logger.runToExit, hw, hc, hq, Logger.drainAll]
      · exact hq
    · simp at h

theorem Logger.runToExit_unique {writeOk : Nat → Bool} {l l1 : Logger}
    (h : Relation.ReflTransGen (Logger.WorkerStepW writeOk) l l1) (hq : l.quit = true)
    (he : l1.worker = .exited) : l1 = l.runToExit writeOk := by
  induction h using Relation.ReflTransGen.head_induction_on with
  | refl => simp [Logger.runToExit, he]
  | head hstep _ ih =>
    have := Logger.runToExit_of_step hstep hq
    rw [← this.1]
    exact ih this.2

theorem Logger.workLeft_decreases {l l1 : Logger} (h : Logger.WorkerStep l l1) :
    l1.workLeft < l.workLeft := by
  cases h with
  | recv ok h =>
    unfold Logger.recvBranch at h
    split at h
    · next entry rest hw hc =>
      simp only [Option.some.injEq] at h
      subst h
      simp [Logger.workLeft, hw, hc]
    · simp at h
  | quit h =>
    unfold Logger.quitBranch at h
    split at h
    · next hw hc =>
      simp only [Option.some.injEq] at h
      subst h
      simp [Logger.workLeft, hw]
    · simp at h
  | drain ok h =>
    unfold Logger.drainStep at h
    split at h
    · next entry rest hw hc =>
      simp only [Option.some.injEq] at h
      subst h
      simp [Logger.workLeft, hw, hc]
    · next hw hc =>
      simp only [Option.some.injEq] at h
      subst h
      simp [Logger.workLeft, hw]
    · simp at h

theorem Logger.worker_progress (writeOk : Nat → Bool) (l : Logger) (hq : l.quit = true)
    (hw : l.worker = .selecting ∨ l.worker = .draining) :
    ∃ l1, Logger.WorkerStepW writeOk l l1 := by
  rcases hw with hw | hw
  · refine ⟨{ l with worker := .draining }, Logger.WorkerStepW.quit ?_⟩
    simp [Logger.quitBranch, hw, hq]
  · cases hc : l.logChan with
    | nil =>
      refine ⟨{ l with worker := .exited }, Logger.WorkerStepW.drain ?_⟩
      simp [Logger.drainStep, hw, hc]
    | cons entry rest =>
      refine ⟨Logger.Encode (writeOk l.attempts.length) entry { l with logChan := rest },
        Logger.WorkerStepW.drain ?_⟩
      simp [Logger.drainStep, hw, hc]

/-! ## `Shutdown` as a sequence of atomic steps -/

theorem heap_lookup_lt {heap : List Logger} {p : Nat} {l : Logger} (h : heap[p]? = some l) :
    p < heap.length := by
  rcases List.getElem?_eq_some.mp h with ⟨hlt, _⟩
  exact hlt

theorem Step.lift_worker {g : Global} {p : Nat} {l l1 : Logger} (hl : g.heap[p]? = some l)
    (h : Relation.ReflTransGen Logger.WorkerStep l l1) :
    Relation.ReflTransGen Step g { g with heap := g.heap.set p l1 } := by
  induction h with
  | refl =>
    rw [heap_set_same hl]
  | @tail b c _ hstep ih =>
    have hb : ({ g with heap := g.heap.set p b } : Global).heap[p]? = some b := by
      simp [List.getElem?_set_self (heap_lookup_lt hl)]
    have := Step.worker hb hstep
    simp only [List.set_set] at this
    exact Relation.ReflTransGen.tail ih this

theorem Logger.runToExit_wg (writeOk : Nat → Bool) (l : Logger) (hq : l.quit = true) :
    (l.runToExit writeOk).wg = 0 := by
  unfold Logger.runToExit
  cases hw : l.worker <;> simp [hq, Logger.wg, hw]

theorem Logger.runToExit_onceClose (writeOk : Nat → Bool) (l : Logger) :
    (l.runToExit writeOk).onceClose = l.onceClose := by
  unfold Logger.runToExit
  split <;> simp [Logger.drainAll_eq]

theorem Logger.onceCloseDo_done (writeOk : Nat → Bool) {l : Logger}
    (h : l.onceClose = .done) : l.onceCloseDo writeOk = l := by
  simp [Logger.onceCloseDo, h]

theorem Logger.onceCloseDo_latch (writeOk : Nat → Bool) (l : Logger) :
    (l.onceCloseDo writeOk).onceClose = .done := by
  unfold Logger.onceCloseDo
  split
  · assumption
  · rfl
  · rfl

theorem Shutdown_eq (writeOk : Nat → Bool) {g : Global} {p : Nat} {l : Logger}
    (hd : g.defaultLogger = some p) (hl : g.heap[p]? = some l) :
    Shutdown writeOk g = { g with heap := g.heap.set p (l.onceCloseDo writeOk) } := by
  unfold Shutdown
  simp only [hd, hl]

theorem Shutdown_lookup (writeOk : Nat → Bool) {g : Global} {p : Nat} {l : Logger}
    (hd : g.defaultLogger = some p) (hl : g.heap[p]? = some l) :
    (Shutdown writeOk g).defaultLogger = some p ∧
      (Shutdown writeOk g).heap[p]? = some (l.onceCloseDo writeOk) := by
  rw [Shutdown_eq writeOk hd hl]
  exact ⟨hd, by simp [List.getElem?_set_self (heap_lookup_lt hl)]⟩

theorem Shutdown_steps (writeOk : Nat → Bool) {g : Global} (h : Global.Inv g) :
    Relation.ReflTransGen Step g (Shutdown writeOk g) := by
  cases hd : g.defaultLogger with
  | none =>
    rw [show Shutdown writeOk g = g by unfold Shutdown; simp only [hd]]
  | some p =>
    cases hl : g.heap[p]? with
    | none =>
      rw [show Shutdown writeOk g = g by unfold Shutdown; simp only [hd, hl]]
    | some l =>
      have hlt := heap_lookup_lt hl
      rw [Shutdown_eq writeOk hd hl]
      cases hc : l.onceClose with
      | done =>
        rw [Logger.onceCloseDo_done writeOk hc, heap_set_same hl]
      | fresh =>
        have s1 : Step g { g with heap := g.heap.set p l.closeQuit } := Step.closeBegin hd hl hc
        have hb : ({ g with heap := g.heap.set p l.closeQuit } : Global).heap[p]? =
            some l.closeQuit := by
          simp [List.getElem?_set_self hlt]
        have s2 := Step.lift_worker hb
          ((Logger.runToExit_steps writeOk l.closeQuit rfl).mono
            (fun _ _ hs => Logger.WorkerStepW.toStep hs))
        simp only [List.set_set] at s2
        have hx : ({ g with heap := g.heap.set p (l.closeQuit.runToExit writeOk) } :
            Global).heap[p]? = some (l.closeQuit.runToExit writeOk) := by
          simp [List.getElem?_set_self hlt]
        have s3 := Step.closeEnd hx
          (by rw [Logger.runToExit_onceClose]; rfl) (Logger.runToExit_wg writeOk _ rfl)
        simp only [List.set_set] at s3
        have he : l.onceCloseDo writeOk =
            { l.closeQuit.runToExit writeOk with onceClose := .done } := by
          simp [Logger.onceCloseDo, hc]
        rw [he]
        exact (Relation.ReflTransGen.head s1 s2).tail s3
      | running =>
        have hq : l.quit = true :=
          ((h.loggers l (List.getElem?_mem hl)).enteredClosed (by simp [hc])).1
        have s2 := Step.lift_worker hl
          ((Logger.runToExit_steps writeOk l hq).mono
            (fun _ _ hs => Logger.WorkerStepW.toStep hs))
        have hx : ({ g with heap := g.heap.set p (l.runToExit writeOk) } :
            Global).heap[p]? = some (l.runToExit writeOk) := by
          simp [List.getElem?_set_self hlt]
        have s3 := Step.closeEnd hx
          (by rw [Logger.runToExit_onceClose]; exact hc) (Logger.runToExit_wg writeOk _ hq)
        simp only [List.set_set] at s3
        have he : l.onceCloseDo writeOk = { l.runToExit writeOk with onceClose := .done } := by
          simp [Logger.onceCloseDo, hc]
        rw [he]
        exact s2.tail s3

theorem Reachable.Shutdown (writeOk : Nat → Bool) {g : Global} (h : Reachable g) :
    Reachable (Shutdown writeOk g) :=
  Relation.ReflTransGen.trans h (Shutdown_steps writeOk h.inv)

/-! ## Record content -/

theorem buildMessage_eq_spec {α : Type} (Sprint : α → String) (msg : String) (args : List α) :
    buildMessage Sprint msg args = specMessage Sprint msg args := by
  unfold buildMessage specMessage
  induction args generalizing msg with
  | nil => simp [specSuffix]
  | cons arg rest ih =>
    rw [List.foldl_cons, ih, specSuffix]
    simp [String.append_assoc]

/-- What `log` does once `ensureInit` has run and a logger is in place:
the entry is built, then either sent or reported as dropped. -/
theorem log_outcome {α : Type} (Sprint : α → String) (env : Env) (level : LogLevel)
    (msg : String) (args : List α) (g : Global) (p : Nat) (l : Logger)
    (hd : (ensureInit env.openErr g).defaultLogger = some p)
    (hl : (ensureInit env.openErr g).heap[p]? = some l) :
    (∃ l1, l.send env.parked env.writeOk ⟨level, buildMessage Sprint msg args, env.now⟩ = some l1 ∧
        log Sprint env level msg args g =
          { ensureInit env.openErr g with heap := (ensureInit env.openErr g).heap.set p l1 }) ∨
      (l.send env.parked env.writeOk ⟨level, buildMessage Sprint msg args, env.now⟩ = none ∧
        log Sprint env level msg args g =
          { ensureInit env.openErr g with
            stdout := (ensureInit env.openErr g).stdout ++
              [.bufferFull ⟨level, buildMessage Sprint msg args, env.now⟩] }) := by
  unfold log
  simp only [hd, hl]
  cases hs : l.send env.parked env.writeOk ⟨level, buildMessage Sprint msg args, env.now⟩ with
  | none => right; simp
  | some l1 => left; exact ⟨l1, rfl, by simp⟩

theorem Logger.send_enqueued {l l1 : Logger} {parked ok : Bool} {entry : logEntry}
    (h : l.send parked ok entry = some l1) : l1.enqueued = l.enqueued ++ [entry] := by
  unfold Logger.send at h
  split at h
  · simp only [Option.some.injEq] at h
    subst h
    simp
  · split at h
    · simp only [Option.some.injEq] at h
      subst h
      rfl
    · simp at h

theorem ensureInit_of_done {g : Global} (h : g.onceInit = true) (openErr : Option String) :
    ensureInit openErr g = g := by
  simp [ensureInit, h]

/-! ## Following one logger through the steps of the package -/

theorem frame_set {heap : List Logger} {p q : Nat} {l lq lq1 : Logger}
    (hq : heap[q]? = some lq) (hm : Logger.Move lq lq1) (hl : heap[p]? = some l) :
    ∃ l1, (heap.set q lq1)[p]? = some l1 ∧ (l1 = l ∨ Logger.Move l l1) := by
  by_cases hpq : q = p
  · subst hpq
    rw [hq] at hl
    simp only [Option.some.injEq] at hl
    subst hl
    exact ⟨lq1, by simp [List.getElem?_set_self (heap_lookup_lt hq)], Or.inr hm⟩
  · exact ⟨l, by rw [List.getElem?_set_ne hpq]; exact hl, Or.inl rfl⟩

theorem InitWithBufferSize_heap (openErr : Option String) (bufferSize : Int) (g : Global)
    {p : Nat} {l : Logger} (hl : g.heap[p]? = some l) :
    (InitWithBufferSize openErr bufferSize g).1.heap[p]? = some l := by
  unfold InitWithBufferSize listenForShutdown GetDateBasedLogFile
  split
  · exact hl
  · split
    · exact hl
    · split
      · exact hl
      · simp only
        rw [List.getElem?_append_left (heap_lookup_lt hl)]
        exact hl

theorem ensureInit_heap (openErr : Option String) (g : Global) {p : Nat} {l : Logger}
    (hl : g.heap[p]? = some l) : (ensureInit openErr g).heap[p]? = some l := by
  unfold ensureInit
  split
  · exact hl
  · have hi := InitWithBufferSize_heap openErr defaultBufSize g hl
    unfold Init
    split
    · next g1 err heq => rw [heq] at hi; exact hi
    · next g1 r hne heq => rw [heq] at hi; exact hi

theorem Step.frame_logger {g g1 : Global} (hs : Step g g1) {p : Nat} {l : Logger}
    (hl : g.heap[p]? = some l) :
    ∃ l1, g1.heap[p]? = some l1 ∧ (l1 = l ∨ Logger.Move l l1) := by
  cases hs with
  | init openErr bufferSize =>
    exact ⟨l, InitWithBufferSize_heap openErr bufferSize g hl, Or.inl rfl⟩
  | emit Sprint env level msg args =>
    have h1 := ensureInit_heap env.openErr g hl
    unfold log
    simp only
    split
    · exact ⟨l, h1, Or.inl rfl⟩
    · next q hq =>
      split
      · exact ⟨l, h1, Or.inl rfl⟩
      · next lq hlq =>
        split
        · next lq1 hsend => exact frame_set hlq (Logger.Move.send _ _ _ hsend) h1
        · exact ⟨l, h1, Or.inl rfl⟩
  | worker hq hw => exact frame_set hq (Logger.Move.worker hw) hl
  | closeBegin hd hq hf => exact frame_set hq (Logger.Move.closeBegin hf) hl
  | closeEnd hq hr hz => exact frame_set hq (Logger.Move.closeEnd hr hz) hl

theorem Steps.follow_logger {g g1 : Global} (hs : Relation.ReflTransGen Step g g1) {p : Nat}
    {l : Logger} (hl : g.heap[p]? = some l) :
    ∃ l1, g1.heap[p]? = some l1 ∧ Relation.ReflTransGen Logger.Move l l1 := by
  induction hs with
  | refl => exact ⟨l, hl, Relation.ReflTransGen.refl⟩
  | tail _ hstep ih =>
    obtain ⟨l1, h1, hm⟩ := ih
    obtain ⟨l2, h2, hor⟩ := Step.frame_logger hstep h1
    rcases hor with he | hmove
    · exact ⟨l2, h2, he ▸ hm⟩
    · exact ⟨l2, h2, hm.tail hmove⟩

theorem Logger.inv_move {l l1 : Logger} (h : Logger.Inv l) (hm : Logger.Move l l1) :
    Logger.Inv l1 := by
  cases hm with
  | worker hw => exact Logger.inv_workerStep h hw
  | send parked ok entry hs => exact Logger.inv_send h parked ok entry hs
  | closeBegin hf => exact Logger.inv_closeQuit h hf
  | closeEnd hr hz => exact Logger.inv_closeEnd h hr hz

theorem Logger.inv_moves {l l1 : Logger} (h : Logger.Inv l)
    (hm : Relation.ReflTransGen Logger.Move l l1) : Logger.Inv l1 := by
  induction hm with
  | refl => exact h
  | tail _ hstep ih => exact Logger.inv_move ih hstep

/-- A worker that has returned takes no further step. -/
theorem Logger.no_step_after_exit {l l1 : Logger} (he : l.worker = .exited) :
    ¬ Logger.WorkerStep l l1 := by
  intro hs
  cases hs with
  | recv ok h => simp [Logger.recvBranch, he] at h
  | quit h => simp [Logger.quitBranch, he] at h
  | drain ok h => simp [Logger.drainStep, he] at h

/-- After the worker has returned the sink is frozen and the buffer only grows. -/
theorem Logger.frozen_move {l l1 : Logger} (hm : Logger.Move l l1) (he : l.worker = .exited) :
    l1.worker = .exited ∧ l1.out = l.out ∧ l1.attempts = l.attempts ∧
      l.logChan <+: l1.logChan := by
  cases hm with
  | worker hw => exact absurd hw (Logger.no_step_after_exit he)
  | send parked ok entry hs =>
    unfold Logger.send at hs
    split at hs
    · next hc => simp [he] at hc
    · split at hs
      · simp only [Option.some.injEq] at hs
        subst hs
        exact ⟨he, rfl, rfl, by simp [Logger.push]⟩
      · simp at hs
  | closeBegin hf => exact ⟨he, rfl, rfl, List.prefix_refl _⟩
  | closeEnd hr hz => exact ⟨he, rfl, rfl, List.prefix_refl _⟩

theorem Logger.frozen_moves {l l1 : Logger} (hm : Relation.ReflTransGen Logger.Move l l1)
    (he : l.worker = .exited) :
    l1.worker = .exited ∧ l1.out = l.out ∧ l1.attempts = l.attempts ∧
      l.logChan <+: l1.logChan := by
  induction hm with
  | refl => exact ⟨he, rfl, rfl, List.prefix_refl _⟩
  | tail _ hstep ih =>
    obtain ⟨h1, h2, h3, h4⟩ := ih
    obtain ⟨k1, k2, k3, k4⟩ := Logger.frozen_move hstep h1
    exact ⟨k1, k2.trans h2, k3.trans h3, h4.trans k4⟩

/-! ## A burst of emits while the worker is idle -/

theorem Logger.send_quiet {l : Logger} (ok : Bool) (entry : logEntry) :
    l.send false ok entry = if l.logChan.length < l.cap then some (l.push entry) else none := by
  unfold Logger.send
  simp

theorem log_quiet {α : Type} (Sprint : α → String) (c : Call α) (g : Global) (p : Nat)
    (l : Logger) (hg : g.onceInit = true) (hd : g.defaultLogger = some p)
    (hl : g.heap[p]? = some l) (hq : c.env.parked = false) :
    log Sprint c.env c.level c.msg c.args g =
      if l.logChan.length < l.cap then
        { g with heap := g.heap.set p (l.push (c.entry Sprint)) }
      else { g with stdout := g.stdout ++ [.bufferFull (c.entry Sprint)] } := by
  unfold log
  simp only [ensureInit_of_done hg, hd, hl, hq, Logger.send_quiet]
  by_cases hroom : l.logChan.length < l.cap
  · simp [hroom, Call.entry]
  · simp [hroom, Call.entry]

theorem emitAll_quiet {α : Type} (Sprint : α → String) (calls : List (Call α)) (g : Global)
    (p : Nat) (l : Logger) (hg : calls ≠ [] → g.onceInit = true)
    (hd : g.defaultLogger = some p) (hl : g.heap[p]? = some l)
    (hq : ∀ c ∈ calls, c.env.parked = false) :
    emitAll Sprint calls g =
      { g with
        heap := g.heap.set p
          (l.pushMany ((calls.map (Call.entry Sprint)).take (l.cap - l.logChan.length)))
        stdout := g.stdout ++
          ((calls.map (Call.entry Sprint)).drop (l.cap - l.logChan.length)).map
            Diagnostic.bufferFull } := by
  induction calls generalizing g l with
  | nil =>
    simp only [emitAll, List.foldl_nil, List.map_nil, List.take_nil, List.drop_nil,
      List.append_nil]
    have : l.pushMany [] = l := by simp [Logger.pushMany]
    rw [this, heap_set_same hl]
  | cons c rest ih =>
    have hg1 : g.onceInit = true := hg (List.cons_ne_nil _ _)
    have hqc : c.env.parked = false := hq c (List.mem_cons_self _ _)
    have hqr : ∀ c ∈ rest, c.env.parked = false := fun d hd => hq d (List.mem_cons_of_mem _ hd)
    have hunf : emitAll Sprint (c :: rest) g =
        emitAll Sprint rest (log Sprint c.env c.level c.msg c.args g) := rfl
    rw [hunf, log_quiet Sprint c g p l hg1 hd hl hqc]
    by_cases hroom : l.logChan.length < l.cap
    · rw [if_pos hroom]
      have hl1 : ({ g with heap := g.heap.set p (l.push (c.entry Sprint)) } : Global).heap[p]? =
          some (l.push (c.entry Sprint)) := by
        simp [List.getElem?_set_self (heap_lookup_lt hl)]
      rw [ih { g with heap := g.heap.set p (l.push (c.entry Sprint)) } (l.push (c.entry Sprint))
        (fun _ => hg1) hd hl1 hqr]
      have hk : l.cap - l.logChan.length = (l.cap - (l.logChan.length + 1)) + 1 := by omega
      rw [hk]
      simp [Logger.push, Logger.pushMany, List.set_set]
    · rw [if_neg hroom]
      have hk : l.cap - l.logChan.length = 0 := by omega
      rw [ih { g with stdout := g.stdout ++ [.bufferFull (c.entry Sprint)] } l (fun _ => hg1)
        hd hl hqr, hk]
      simp [Logger.pushMany]

theorem Logger.run_conserves {writeOk : Nat → Bool} {l l1 : Logger}
    (h : Logger.WorkerStepW writeOk l l1) :
    l1.out ++ written (outcomes writeOk l1.encErr l1.attempts.length l1.logChan) =
      l.out ++ written (outcomes writeOk l.encErr l.attempts.length l.logChan) := by
  cases h with
  | recv h =>
    unfold Logger.recvBranch at h
    split at h
    · next entry rest hw hc =>
      simp only [Option.some.injEq] at h
      subst h
      rw [Logger.Encode_eq]
      cases hok : writeOk l.attempts.length <;> cases he : l.encErr <;>
        simp [hc, outcomes, written, hok, he]
    · simp at h
  | quit h =>
    unfold Logger.quitBranch at h
    split at h
    · simp only [Option.some.injEq] at h
      subst h
      rfl
    · simp at h
  | drain h =>
    unfold Logger.drainStep at h
    split at h
    · next entry rest hw hc =>
      simp only [Option.some.injEq] at h
      subst h
      rw [Logger.Encode_eq]
      cases hok : writeOk l.attempts.length <;> cases he : l.encErr <;>
        simp [hc, outcomes, written, hok, he]
    · simp only [Option.some.injEq] at h
      subst h
      rfl
    · simp at h

theorem Logger.runs_conserve {writeOk : Nat → Bool} {l l1 : Logger}
    (h : Relation.ReflTransGen (Logger.WorkerStepW writeOk) l l1) :
    l1.out ++ written (outcomes writeOk l1.encErr l1.attempts.length l1.logChan) =
      l.out ++ written (outcomes writeOk l.encErr l.attempts.length l.logChan) := by
  induction h with
  | refl => rfl
  | tail _ hstep ih => rw [Logger.run_conserves hstep, ih]

theorem Logger.step_allOk_latch {l l1 : Logger} (h : Logger.WorkerStepW allOk l l1)
    (he : l.encErr = false) : l1.encErr = false := by
  cases h with
  | recv h =>
    unfold Logger.recvBranch at h
    split at h
    · simp only [Option.some.injEq] at h
      subst h
      rw [Logger.Encode_eq]
      simp [he, allOk]
    · simp at h
  | quit h =>
    unfold Logger.quitBranch at h
    split at h
    · simp only [Option.some.injEq] at h
      subst h
      exact he
    · simp at h
  | drain h =>
    unfold Logger.drainStep at h
    split at h
    · simp only [Option.some.injEq] at h
      subst h
      rw [Logger.Encode_eq]
      simp [he, allOk]
    · simp only [Option.some.injEq] at h
      subst h
      exact he
    · simp at h

theorem Logger.runs_allOk {l l1 : Logger}
    (h : Relation.ReflTransGen (Logger.WorkerStepW allOk) l l1) (he : l.encErr = false) :
    l1.out ++ l1.logChan = l.out ++ l.logChan := by
  have hlatch : l1.encErr = false := by
    induction h with
    | refl => exact he
    | tail _ hstep ih => exact Logger.step_allOk_latch hstep ih
  have := Logger.runs_conserve h
  rwa [he, hlatch, (outcomes_all_ok allOk (fun _ => rfl) _ _).1,
    (outcomes_all_ok allOk (fun _ => rfl) _ _).1] at this

theorem Logger.run_conserves_attempts {writeOk : Nat → Bool} {l l1 : Logger}
    (h : Logger.WorkerStepW writeOk l l1) :
    l1.attempts ++ outcomes writeOk l1.encErr l1.attempts.length l1.logChan =
      l.attempts ++ outcomes writeOk l.encErr l.attempts.length l.logChan := by
  cases h with
  | recv h =>
    unfold Logger.recvBranch at h
    split at h
    · next entry rest hw hc =>
      simp only [Option.some.injEq] at h
      subst h
      rw [Logger.Encode_eq]
      simp [hc, outcomes]
    · simp at h
  | quit h =>
    unfold Logger.quitBranch at h
    split at h
    · simp only [Option.some.injEq] at h
      subst h
      rfl
    · simp at h
  | drain h =>
    unfold Logger.drainStep at h
    split at h
    · next entry rest hw hc =>
      simp only [Option.some.injEq] at h
      subst h
      rw [Logger.Encode_eq]
      simp [hc, outcomes]
    · simp only [Option.some.injEq] at h
      subst h
      rfl
    · simp at h

theorem Logger.runs_conserve_attempts {writeOk : Nat → Bool} {l l1 : Logger}
    (h : Relation.ReflTransGen (Logger.WorkerStepW writeOk) l l1) :
    l1.attempts ++ outcomes writeOk l1.encErr l1.attempts.length l1.logChan =
      l.attempts ++ outcomes writeOk l.encErr l.attempts.length l.logChan := by
  induction h with
  | refl => rfl
  | tail _ hstep ih => rw [Logger.run_conserves_attempts hstep, ih]

theorem Logger.runs_all_written {writeOk : Nat → Bool} {l l1 : Logger}
    (h : Relation.ReflTransGen (Logger.WorkerStepW writeOk) l l1) (hdone : l1.logChan = [])
    (hok : ∀ a ∈ l1.attempts.drop l.attempts.length, a.2 = true) :
    l1.out = l.out ++ l.logChan := by
  have h1 := Logger.runs_conserve_attempts h
  have h2 := Logger.runs_conserve h
  rw [hdone] at h1 h2
  simp only [outcomes, written, List.append_nil, List.filter_nil, List.map_nil] at h1 h2
  rw [h1, List.drop_left] at hok
  rw [h2]
  have := written_all_ok _ hok
  rw [outcomes_fst] at this
  unfold written at this
  rw [this]

theorem Logger.runToExit_running (writeOk : Nat → Bool) (l : Logger) (hq : l.quit = true)
    (hw : l.worker = .selecting ∨ l.worker = .draining) :
    l.runToExit writeOk =
      { l with
        logChan := []
        out := l.out ++ written (outcomes writeOk l.encErr l.attempts.length l.logChan)
        encErr := latchedAfter writeOk l.encErr l.attempts.length l.logChan
        attempts := l.attempts ++ outcomes writeOk l.encErr l.attempts.length l.logChan
        worker := .exited } := by
  unfold Logger.runToExit
  rcases hw with hw | hw <;> simp [hw, hq, Logger.drainAll_eq]

/-! ## Racing `Shutdown` calls end in the state of a single call -/

theorem Logger.QuietMove.toMove {writeOk : Nat → Bool} {l l1 : Logger}
    (h : Logger.QuietMove writeOk l l1) : Logger.Move l l1 := by
  cases h with
  | worker hw => exact .worker hw.toStep
  | closeBegin hf => exact .closeBegin hf
  | closeEnd hr hz => exact .closeEnd hr hz

theorem Logger.workerStep_onceClose {l l1 : Logger} (h : Logger.WorkerStep l l1) :
    l1.onceClose = l.onceClose := by
  cases h with
  | recv ok h =>
    unfold Logger.recvBranch at h
    split at h
    · simp only [Option.some.injEq] at h
      subst h
      simp
    · simp at h
  | quit h =>
    unfold Logger.quitBranch at h
    split at h
    · simp only [Option.some.injEq] at h
      subst h
      rfl
    · simp at h
  | drain ok h =>
    unfold Logger.drainStep at h
    split at h
    · simp only [Option.some.injEq] at h
      subst h
      simp
    · simp only [Option.some.injEq] at h
      subst h
      rfl
    · simp at h

theorem Logger.closeQuit_step {writeOk : Nat → Bool} {l l1 : Logger}
    (h : Logger.WorkerStepW writeOk l l1) (hq : l.quit = false) (hw : l.worker = .selecting) :
    Logger.WorkerStepW writeOk l.closeQuit l1.closeQuit := by
  cases h with
  | recv h =>
    unfold Logger.recvBranch at h
    split at h
    · next entry rest _ hc =>
      simp only [Option.some.injEq] at h
      subst h
      apply Logger.WorkerStepW.recv
      rw [Logger.Encode_eq]
      simp [Logger.recvBranch, Logger.closeQuit, Logger.Encode_eq, hw, hc]
    · simp at h
  | quit h => simp [Logger.quitBranch, hw, hq] at h
  | drain h => simp [Logger.drainStep, hw] at h

theorem Logger.onceCloseDo_quietMove {writeOk : Nat → Bool} {l l1 : Logger}
    (hi : Logger.Inv l) (h : Logger.QuietMove writeOk l l1) :
    l1.onceCloseDo writeOk = l.onceCloseDo writeOk := by
  cases h with
  | worker hs =>
    have hoc := Logger.workerStep_onceClose hs.toStep
    cases hc : l.onceClose with
    | fresh =>
      have hq := (hi.freshOpen hc).1
      have hstep := Logger.closeQuit_step hs hq (hi.openSelecting hq)
      have := (Logger.runToExit_of_step hstep rfl).1
      simp [Logger.onceCloseDo, hoc, hc, this]
    | running =>
      have hq := (hi.enteredClosed (by simp [hc])).1
      have := (Logger.runToExit_of_step hs hq).1
      simp [Logger.onceCloseDo, hoc, hc, this]
    | done => exact absurd hs.toStep (Logger.no_step_after_exit (hi.doneExited hc))
  | closeBegin hf => simp [Logger.onceCloseDo, hf, Logger.closeQuit]
  | closeEnd hr hz =>
    have hex := Logger.wg_eq_zero hi.started hz
    simp [Logger.onceCloseDo, hr, Logger.runToExit, hex]

theorem Logger.quiet_final {writeOk : Nat → Bool} {l l3 : Logger} (hi : Logger.Inv l)
    (h : Relation.ReflTransGen (Logger.QuietMove writeOk) l l3) (hd : l3.onceClose = .done) :
    l3 = l.onceCloseDo writeOk := by
  induction h using Relation.ReflTransGen.head_induction_on with
  | refl => exact (Logger.onceCloseDo_done writeOk hd).symm
  | head hstep _ ih =>
    rw [← Logger.onceCloseDo_quietMove hi hstep]
    exact ih (Logger.inv_move hi hstep.toMove)

/-! ## The state in which `log` reaches its send -/

theorem ensureInit_cases (openErr : Option String) (g : Global) :
    ensureInit openErr g = g ∨
    (∃ err, ensureInit openErr g =
      { g with onceInit := true, stdout := g.stdout ++ [.initFailed err] }) ∨
    ensureInit openErr g =
      { g with
        heap := g.heap ++ [(newLogger 100).start]
        defaultLogger := some g.heap.length
        onceInit := true } := by
  unfold ensureInit
  by_cases hg : g.onceInit = true
  · left
    simp [hg]
  · right
    simp only [hg]
    cases openErr with
    | some err =>
      left
      exact ⟨err, by simp [Init, InitWithBufferSize, GetDateBasedLogFile]⟩
    | none =>
      right
      have hcap : ¬ maxChanCap < 100 := by decide
      simp [Init, InitWithBufferSize, GetDateBasedLogFile, listenForShutdown, defaultBufSize, hcap]

theorem ensureInit_idem (openErr : Option String) (g : Global) :
    ensureInit openErr (ensureInit openErr g) = ensureInit openErr g :=
  ensureInit_of_done (ensureInit_onceInit openErr g) openErr

theorem log_ensureInit {α : Type} (Sprint : α → String) (env : Env) (level : LogLevel)
    (msg : String) (args : List α) (g : Global) :
    log Sprint env level msg args (ensureInit env.openErr g) = log Sprint env level msg args g := by
  unfold log
  rw [ensureInit_idem]

/-- When the logger `log` addresses has a worker that has returned, `ensureInit` built
no logger: heap and default logger are those of the state before. -/
theorem ensureInit_exited {openErr : Option String} {g : Global} {p : Nat} {l : Logger}
    (hd : (ensureInit openErr g).defaultLogger = some p)
    (hl : (ensureInit openErr g).heap[p]? = some l) (hex : l.worker = .exited) :
    (ensureInit openErr g).heap = g.heap ∧ g.defaultLogger = some p ∧ g.heap[p]? = some l := by
  rcases ensureInit_cases openErr g with h | ⟨err, h⟩ | h
  · rw [h] at hd hl
    exact ⟨by rw [h], hd, hl⟩
  · rw [h] at hd hl
    exact ⟨by rw [h], hd, hl⟩
  · rw [h] at hd hl
    simp only [Option.some.injEq] at hd
    subst hd
    simp at hl
    subst hl
    simp [newLogger, Logger.start] at hex

theorem emitAll_burstStart {α : Type} (Sprint : α → String) (calls : List (Call α))
    (g : Global) : emitAll Sprint calls (burstStart calls g) = emitAll Sprint calls g := by
  cases calls with
  | nil => rfl
  | cons c rest =>
    show emitAll Sprint rest (log Sprint c.env c.level c.msg c.args (ensureInit c.env.openErr g))
      = emitAll Sprint rest (log Sprint c.env c.level c.msg c.args g)
    rw [log_ensureInit]

theorem burstStart_onceInit {α : Type} (calls : List (Call α)) (g : Global)
    (h : calls ≠ []) : (burstStart calls g).onceInit = true := by
  cases calls with
  | nil => exact absurd rfl h
  | cons c rest => exact ensureInit_onceInit c.env.openErr g

/-! ## Further lemmas on `log` and `Shutdown` -/

theorem Logger.stays_selecting {l l1 : Logger} (hw : l.worker = .selecting)
    (hq : l.quit = false) (h : Logger.WorkerStep l l1) : l1.worker = .selecting := by
  cases h with
  | recv ok h =>
    unfold Logger.recvBranch at h
    split at h
    · simp only [Option.some.injEq] at h
      subst h
      simpa using hw
    · simp at h
  | quit h => simp [Logger.quitBranch, hw, hq] at h
  | drain ok h => simp [Logger.drainStep, hw] at h

theorem written_outcomes (writeOk : Nat → Bool) (latched : Bool) (n : Nat)
    (queue : List logEntry) :
    written (outcomes writeOk latched n queue) =
      if latched = true then [] else acceptedPrefix writeOk n queue := by
  cases latched
  · simpa using outcomes_accepted writeOk n queue
  · simpa using (outcomes_latched writeOk n queue).1

theorem reachable_lostWrite : Reachable lostWrite := by
  have h1 : Reachable queuedA :=
    Relation.ReflTransGen.single
      (Step.emit GoValue.Sprint (Env.quiet 1) INFO "A" noArgs Global.initial)
  have h2 : Step queuedA lostWrite :=
    @Step.worker queuedA 0 queuedALogger failedALogger
      (by decide) (Logger.WorkerStep.recv false (by decide))
  exact h1.tail h2

/-- Once `quit` is closed, records sent before stay ahead of every later
one, and by the time the worker has returned each of them has been
through `Encode`. -/
theorem Logger.delivered_move {l l1 : Logger} {sent : List logEntry} (hi : Logger.Inv l)
    (hm : Logger.Move l l1) (hq : l.quit = true) (hs : sent <+: l.enqueued)
    (hx : l.worker = .exited → sent <+: l.attempts.map Prod.fst) :
    l1.quit = true ∧ sent <+: l1.enqueued ∧
      (l1.worker = .exited → sent <+: l1.attempts.map Prod.fst) := by
  cases hm with
  | worker hw =>
    cases hw with
    | recv ok h =>
      unfold Logger.recvBranch at h
      split at h
      · next entry rest hw hc =>
        simp only [Option.some.injEq] at h
        subst h
        exact ⟨by simpa using hq, by simpa using hs, by simp [hw]⟩
      · simp at h
    | quit h =>
      unfold Logger.quitBranch at h
      split at h
      · simp only [Option.some.injEq] at h
        subst h
        exact ⟨hq, hs, by simp⟩
      · simp at h
    | drain ok h =>
      unfold Logger.drainStep at h
      split at h
      · next entry rest hw hc =>
        simp only [Option.some.injEq] at h
        subst h
        exact ⟨by simpa using hq, by simpa using hs, by simp [hw]⟩
      · next hw hc =>
        simp only [Option.some.injEq] at h
        subst h
        refine ⟨hq, hs, fun _ => ?_⟩
        have := hi.fifo
        rw [hc, List.append_nil] at this
        simpa [this] using hs
      · simp at h
  | send parked ok entry h =>
    unfold Logger.send at h
    split at h
    · next hc => simp [hq] at hc
    · split at h
      · simp only [Option.some.injEq] at h
        subst h
        exact ⟨hq, hs.trans ⟨[entry], rfl⟩, hx⟩
      · simp at h
  | closeBegin hf => simp [(hi.freshOpen hf).1] at hq
  | closeEnd hr hz => exact ⟨hq, hs, hx⟩

theorem Logger.delivered_moves {l l1 : Logger} {sent : List logEntry} (hi : Logger.Inv l)
    (hm : Relation.ReflTransGen Logger.Move l l1) (hq : l.quit = true)
    (hs : sent <+: l.enqueued) (hx : l.worker = .exited → sent <+: l.attempts.map Prod.fst) :
    Logger.Inv l1 ∧ l1.quit = true ∧ sent <+: l1.enqueued ∧
      (l1.worker = .exited → sent <+: l1.attempts.map Prod.fst) := by
  induction hm with
  | refl => exact ⟨hi, hq, hs, hx⟩
  | tail _ hstep ih =>
    obtain ⟨h1, h2, h3, h4⟩ := ih
    exact ⟨Logger.inv_move h1 hstep, Logger.delivered_move h1 hstep h2 h3 h4⟩

theorem Logger.Inv.noError {l : Logger} (hi : Logger.Inv l)
    (hok : ∀ a ∈ l.attempts, a.2 = true) : l.encErr = false := by
  rw [hi.latch, List.any_eq_false]
  intro a ha
  simp [hok a ha]

theorem reachable_afterFirstEmit : Reachable afterFirstEmit :=
  Relation.ReflTransGen.single
    (Step.emit GoValue.Sprint (Env.quiet 0) INFO "boot" noArgs Global.initial)

theorem reachable_explicitLater (n : Int) : Reachable (explicitLater n) :=
  reachable_afterFirstEmit.tail (Step.init none n afterFirstEmit)

theorem reachable_afterShutdown : Reachable afterShutdown :=
  Reachable.Shutdown allOk reachable_afterFirstEmit

theorem Logger.send_full {l : Logger} (parked ok : Bool) (entry : logEntry)
    (hfull : l.logChan.length = l.cap) (hnp : 0 < l.cap ∨ parked = false) :
    l.send parked ok entry = none := by
  unfold Logger.send
  have hno : ¬ (parked = true ∧ l.worker = .selecting ∧ l.quit = false ∧ l.logChan = []) := by
    rintro ⟨hp, _, _, he⟩
    rcases hnp with hc | hc
    · rw [he] at hfull
      simp at hfull
      omega
    · simp [hc] at hp
  rw [if_neg hno, if_neg (by omega)]

theorem reachable_twoQueued : Reachable twoQueued := by
  have h2 : Reachable (explicitLater 2) :=
    reachable_afterFirstEmit.tail (Step.init none 2 afterFirstEmit)
  have h3 := h2.tail (Step.emit GoValue.Sprint (Env.quiet 1) INFO "A" noArgs (explicitLater 2))
  exact h3.tail (Step.emit GoValue.Sprint (Env.quiet 2) INFO "B" noArgs _)

theorem Shutdown_idem (w1 w2 : Nat → Bool) (g : Global) :
    Shutdown w2 (Shutdown w1 g) = Shutdown w1 g := by
  cases hd : g.defaultLogger with
  | none =>
    have : Shutdown w1 g = g := by unfold Shutdown; simp only [hd]
    rw [this]
    unfold Shutdown
    simp only [hd]
  | some p =>
    cases hl : g.heap[p]? with
    | none =>
      have : Shutdown w1 g = g := by unfold Shutdown; simp only [hd, hl]
      rw [this]
      unfold Shutdown
      simp only [hd, hl]
    | some l =>
      obtain ⟨hd1, hl1⟩ := Shutdown_lookup w1 hd hl
      rw [Shutdown_eq w2 hd1 hl1,
        Logger.onceCloseDo_done w2 (Logger.onceCloseDo_latch w1 l), heap_set_same hl1]

theorem Shutdown_iterate (writeOk : Nat → Bool) (g : Global) (n : Nat) :
    (Shutdown writeOk)^[n + 1] g = Shutdown writeOk g := by
  induction n with
  | zero => rfl
  | succ k ih => rw [Function.iterate_succ_apply', ih, Shutdown_idem]

theorem log_record {α : Type} (Sprint : α → String) (env : Env) (level : LogLevel)
    (msg : String) (args : List α) (g : Global) (p : Nat) (l : Logger)
    (hd : (ensureInit env.openErr g).defaultLogger = some p)
    (hl : (ensureInit env.openErr g).heap[p]? = some l) :
    (∃ l1, (log Sprint env level msg args g).heap[p]? = some l1 ∧
        l1.enqueued = l.enqueued ++ [⟨level, specMessage Sprint msg args, env.now⟩]) ∨
      (log Sprint env level msg args g).stdout = (ensureInit env.openErr g).stdout ++
        [.bufferFull ⟨level, specMessage Sprint msg args, env.now⟩] := by
  rw [← buildMessage_eq_spec]
  rcases log_outcome Sprint env level msg args g p l hd hl with ⟨l1, hs, he⟩ | ⟨_, he⟩
  · left
    refine ⟨l1, ?_, Logger.send_enqueued hs⟩
    rw [he]
    simp [List.getElem?_set_self (heap_lookup_lt hl)]
  · right
    rw [he]

/-- For every capacity `c` that `make` accepts: on a fresh package, after a successful explicit
`InitWithBufferSize(c)`, the first emit for which the log file opens
builds a second logger of capacity 100 and makes it the default one;
the record is sent to it and the first logger is left as it was. -/
theorem first_emit_replaces_logger {α : Type} (Sprint : α → String) (env : Env)
    (level : LogLevel) (msg : String) (args : List α) (c : Nat) (hopen : env.openErr = none)
    (hsize : c ≤ maxChanCap) :
    (explicitOnly c).defaultLogger = some 0 ∧
    (explicitOnly c).heap = [(newLogger c).start] ∧
    (log Sprint env level msg args (explicitOnly c)).defaultLogger = some 1 ∧
    (log Sprint env level msg args (explicitOnly c)).heap.map Logger.cap = [c, 100] ∧
    (log Sprint env level msg args (explicitOnly c)).heap[0]? = some (newLogger c).start ∧
    (log Sprint env level msg args (explicitOnly c)).heap[1]?.map Logger.enqueued =
      some [⟨level, buildMessage Sprint msg args, env.now⟩] := by
  have hc : ¬ ((c : Int) < 0) := by omega
  have hm : ¬ maxChanCap < c := by omega
  have hcap : ¬ maxChanCap < 100 := by decide
  have h0 : explicitOnly c =
      { heap := [(newLogger c).start], defaultLogger := some 0, onceInit := false,
        stdout := [] } := by
    simp [explicitOnly, InitWithBufferSize, GetDateBasedLogFile, listenForShutdown,
      Global.initial, hc, hm]
  have h1 : ensureInit env.openErr (explicitOnly c) =
      { heap := [(newLogger c).start, (newLogger 100).start], defaultLogger := some 1,
        onceInit := true, stdout := [] } := by
    rw [h0, hopen]
    simp [ensureInit, Init, InitWithBufferSize, GetDateBasedLogFile, listenForShutdown,
      defaultBufSize, hcap]
  have hd : (ensureInit env.openErr (explicitOnly c)).defaultLogger = some 1 := by rw [h1]
  have hl : (ensureInit env.openErr (explicitOnly c)).heap[1]? = some (newLogger 100).start := by
    rw [h1]
    rfl
  have hsend : ∃ l1, (newLogger 100).start.send env.parked env.writeOk
      ⟨level, buildMessage Sprint msg args, env.now⟩ = some l1 ∧ l1.cap = 100 ∧
      l1.enqueued = [⟨level, buildMessage Sprint msg args, env.now⟩] := by
    cases env.parked <;>
      simp [Logger.send, newLogger, Logger.start, Logger.Encode_eq, Logger.push]
  obtain ⟨l1, hs, hcap, hen⟩ := hsend
  have hlog : log Sprint env level msg args (explicitOnly c) =
      { ensureInit env.openErr (explicitOnly c) with
        heap := (ensureInit env.openErr (explicitOnly c)).heap.set 1 l1 } := by
    rcases log_outcome Sprint env level msg args (explicitOnly c) 1 _ hd hl with
      ⟨l2, hs2, he⟩ | ⟨hs2, _⟩
    · rw [hs] at hs2
      cases hs2
      exact he
    · rw [hs] at hs2
      cases hs2
  rw [hlog, h1]
  refine ⟨by rw [h0], by rw [h0], rfl, ?_, rfl, ?_⟩
  · simp [hcap, newLogger, Logger.start]
  · simp [hen]

theorem Shutdown_running (writeOk : Nat → Bool) (g : Global) (p : Nat) (l : Logger)
    (hd : g.defaultLogger = some p) (hl : g.heap[p]? = some l) (hf : l.onceClose = .fresh)
    (hw : l.worker = .selecting ∨ l.worker = .draining) :
    ∃ l3, (Shutdown writeOk g).heap[p]? = some l3 ∧ l3.worker = .exited ∧ l3.logChan = [] ∧
      l3.out = l.out ++ written (outcomes writeOk l.encErr l.attempts.length l.logChan) ∧
      l3.attempts = l.attempts ++ outcomes writeOk l.encErr l.attempts.length l.logChan ∧
      l3.onceClose = .done ∧ l3.quit = true ∧ l3.closes = l.closes + 1 ∧
      l3.enqueued = l.enqueued ∧ l3.cap = l.cap := by
  refine ⟨l.onceCloseDo writeOk, (Shutdown_lookup writeOk hd hl).2, ?_⟩
  have he : l.onceCloseDo writeOk =
      { l.closeQuit.runToExit writeOk with onceClose := .done } := by
    simp [Logger.onceCloseDo, hf]
  rw [he, Logger.runToExit_running writeOk l.closeQuit rfl
    (by simpa [Logger.closeQuit] using hw)]
  simp [Logger.closeQuit]

theorem Logger.send_exited {l : Logger} (parked ok : Bool) (entry : logEntry)
    (he : l.worker = .exited) (hroom : l.logChan.length < l.cap) :
    l.send parked ok entry =
      some (l.push entry) := by
  unfold Logger.send
  rw [if_neg (by simp [he]), if_pos hroom]

theorem reachable_explicitShutdown : Reachable explicitShutdown :=
  Reachable.Shutdown allOk
    (Relation.ReflTransGen.single (Step.init none 2 Global.initial))

theorem step_lateWritten : Step lateEmit lateWritten :=
  @Step.worker lateEmit 1 lateLogger lateWrittenLogger
    (by decide) (Logger.WorkerStep.recv true (by decide))

/-! # The claims -/

/-- C1, counterexample.  A reachable state in which the sink followed
by the buffer is not the list of records sent: A was sent, the worker
received it and its write failed, so sink and buffer are both empty. -/
theorem C1_counterexample_failed_write :
    Reachable lostWrite ∧
    lostWrite.heap[0]?.map (fun l => (l.out ++ l.logChan, l.enqueued))
      = some ([], [⟨"INFO", "A", 1⟩]) := by
  exact ⟨reachable_lostWrite, by decide⟩

/-- C1, amended.  In every reachable state and for every logger: the
records that went through `Encode`, in order, followed by the buffer are
exactly the records sent, in sending order; the sink holds, in order,
exactly the attempted records whose write succeeded, so it is a
subsequence of the records sent (no reordering, no duplication); and
when every write so far succeeded, sink followed by buffer equals the
list of records sent, which is then the sink itself once the buffer is
empty. -/
theorem C1_fifo_order (g : Global) (hr : Reachable g) (l : Logger) (hl : l ∈ g.heap) :
    l.attempts.map Prod.fst ++ l.logChan = l.enqueued ∧
    l.out = written l.attempts ∧
    l.out.Sublist l.enqueued ∧
    ((∀ a ∈ l.attempts, a.2 = true) → l.out ++ l.logChan = l.enqueued) ∧
    ((∀ a ∈ l.attempts, a.2 = true) → l.logChan = [] → l.out = l.enqueued) := by
  have hi := hr.inv.loggers l hl
  have hall : (∀ a ∈ l.attempts, a.2 = true) → l.out ++ l.logChan = l.enqueued := by
    intro hok
    rw [hi.sink, ← hi.fifo]
    have := written_all_ok l.attempts hok
    unfold written at this
    rw [this]
  refine ⟨hi.fifo, hi.sink, ?_, hall, ?_⟩
  · rw [hi.sink, ← hi.fifo]
    exact (written_sublist l.attempts).trans (List.sublist_append_left _ _)
  · intro hok hempty
    have := hall hok
    rwa [hempty, List.append_nil] at this

/-- Witness for C1: the logger of the state reached by the failed write. -/
theorem C1_fifo_order_witness :
    failedALogger ∈ lostWrite.heap ∧ failedALogger.out.Sublist failedALogger.enqueued :=
  ⟨by decide,
    (C1_fifo_order lostWrite reachable_lostWrite failedALogger (by decide)).2.2.1⟩

/-- C2, counterexample.  Two runs in which every write succeeds and a
record that was sent before `Shutdown` is invoked is not in the sink
when `Shutdown` has returned.  First run: "boot" is sent, an explicit
`InitWithBufferSize(2)` replaces the process-wide logger, `Shutdown` is
called: it shuts the new logger down, "boot" is still in the buffer of
the first one, whose worker has not returned.  Second run: "boot" is
sent, `Shutdown` returns, "late" is sent (the send is taken), `Shutdown`
is called again: "late" is still in the buffer and the sink holds "boot"
alone. -/
theorem C2_counterexample_replaced_or_late :
    Reachable replacedThenShutdown ∧
    (explicitLater 2).heap[0]?.map Logger.enqueued = some [⟨"INFO", "boot", 0⟩] ∧
    replacedThenShutdown.heap[0]?.map (fun l => (l.worker, l.logChan, l.out)) =
      some (.selecting, [⟨"INFO", "boot", 0⟩], []) ∧
    replacedThenShutdown.heap[1]?.map (fun l => (l.worker, l.onceClose, l.out)) =
      some (.exited, .done, []) ∧
    Reachable lateThenShutdown ∧
    (Info GoValue.Sprint (Env.quiet 9) "late" noArgs afterShutdown).heap[0]?.map Logger.enqueued =
      some [⟨"INFO", "boot", 0⟩, ⟨"INFO", "late", 9⟩] ∧
    lateThenShutdown.heap[0]?.map (fun l => (l.worker, l.logChan, l.out)) =
      some (.exited, [⟨"INFO", "late", 9⟩], [⟨"INFO", "boot", 0⟩]) :=
  ⟨Reachable.Shutdown allOk (reachable_explicitLater 2), by decide, by decide, by decide,
    Reachable.Shutdown allOk (reachable_afterShutdown.tail
      (Step.emit GoValue.Sprint (Env.quiet 9) INFO "late" noArgs afterShutdown)),
    by decide, by decide⟩

/-- C2, amended.  Let the process-wide logger have a fresh shutdown
latch in a reachable state, and let `Shutdown` be invoked.  Run as one
call with successful writes, `Shutdown` returns with the latch done, the
worker exited and the buffer empty, and when no earlier write failed the
sink holds the earlier sink followed by the queued records, which is the
list of records sent to that logger before the call.  Under any
interleaving with other steps (emits, worker steps, further calls), once
the latch is done the worker has exited, and if every write succeeded
the records sent before the call form the beginning of the sink while
sink followed by buffer is the list of all records sent: each of them is
in the sink once and none of them is left in the buffer. -/
theorem C2_no_loss_before_shutdown (g : Global) (hr : Reachable g) (p : Nat) (l : Logger)
    (hd : g.defaultLogger = some p) (hl : g.heap[p]? = some l) (hf : l.onceClose = .fresh) :
    (∃ l3, (Shutdown allOk g).heap[p]? = some l3 ∧ l3.onceClose = .done ∧
        l3.worker = .exited ∧ l3.logChan = [] ∧
        ((∀ a ∈ l.attempts, a.2 = true) →
          l3.out = l.out ++ l.logChan ∧ l3.out = l.enqueued)) ∧
    (∀ g3 l3, Relation.ReflTransGen Step { g with heap := g.heap.set p l.closeQuit } g3 →
      g3.heap[p]? = some l3 → l3.onceClose = .done → (∀ a ∈ l3.attempts, a.2 = true) →
      l3.worker = .exited ∧ l.enqueued <+: l3.out ∧ l3.out ++ l3.logChan = l3.enqueued) := by
  have hi : Logger.Inv l := hr.inv.loggers l (List.getElem?_mem hl)
  constructor
  · have hw : l.worker = .selecting := hi.openSelecting (hi.freshOpen hf).1
    obtain ⟨l3, h3, hw3, hc3, ho3, _, hd3, _⟩ := Shutdown_running allOk g p l hd hl hf (Or.inl hw)
    refine ⟨l3, h3, hd3, hw3, hc3, fun hok => ?_⟩
    rw [hi.noError hok, (outcomes_all_ok allOk (fun _ => rfl) _ _).1] at ho3
    refine ⟨ho3, ?_⟩
    rw [ho3, hi.sink, ← hi.fifo]
    have := written_all_ok l.attempts hok
    unfold written at this
    rw [this]
  · intro g3 l3 hs hl3 hdone hok
    have hb : ({ g with heap := g.heap.set p l.closeQuit } : Global).heap[p]? =
        some l.closeQuit := by
      simp [List.getElem?_set_self (heap_lookup_lt hl)]
    obtain ⟨l4, hl4, hm⟩ := Steps.follow_logger hs hb
    rw [hl3] at hl4
    simp only [Option.some.injEq] at hl4
    subst hl4
    have hw0 : l.worker = .selecting := hi.openSelecting (hi.freshOpen hf).1
    obtain ⟨hi3, _, _, hx3⟩ := Logger.delivered_moves (Logger.inv_closeQuit hi hf) hm rfl
      (List.prefix_refl l.enqueued) (by simp [Logger.closeQuit, hw0])
    have hex := hi3.doneExited hdone
    have hout : l3.out = l3.attempts.map Prod.fst := by
      rw [hi3.sink]
      exact written_all_ok l3.attempts hok
    refine ⟨hex, ?_, ?_⟩
    · rw [hout]
      exact hx3 hex
    · rw [hout]
      exact hi3.fifo

/-- Witness for C2: the package after its first emit, then shut down;
the sink holds the record that was waiting. -/
theorem C2_no_loss_before_shutdown_witness :
    afterFirstEmit.heap[0]? = some bootLogger ∧
    (Shutdown allOk afterFirstEmit).heap[0]?.map Logger.out = some [⟨"INFO", "boot", 0⟩] ∧
    ∃ l3, (Shutdown allOk afterFirstEmit).heap[0]? = some l3 ∧ l3.onceClose = .done ∧
      l3.worker = .exited ∧ l3.logChan = [] ∧
      ((∀ a ∈ bootLogger.attempts, a.2 = true) →
        l3.out = bootLogger.out ++ bootLogger.logChan ∧ l3.out = bootLogger.enqueued) :=
  ⟨by decide, by decide,
    (C2_no_loss_before_shutdown afterFirstEmit reachable_afterFirstEmit 0 bootLogger
      (by decide) (by decide) (by decide)).1⟩

/-- C3, counterexample.  The process-wide logger has capacity 0, so its
queue holds exactly `capacity` records; yet an emit made while its
worker is parked at the receive is not dropped: the send is taken,
nothing is printed and the record reaches the sink. -/
theorem C3_counterexample_unbuffered_handoff :
    (explicitLater 0).onceInit = true ∧
    (explicitLater 0).defaultLogger = some 1 ∧
    (explicitLater 0).heap[1]?.map (fun l => (l.logChan.length, l.cap)) = some (0, 0) ∧
    (Info GoValue.Sprint (Env.handOff 1) "A" noArgs (explicitLater 0)).stdout
      = (explicitLater 0).stdout ∧
    (explicitLater 0).heap[1]?.map Logger.out = some [] ∧
    (Info GoValue.Sprint (Env.handOff 1) "A" noArgs (explicitLater 0)).heap[1]?.map
      Logger.enqueued = some [⟨"INFO", "A", 1⟩] ∧
    (Info GoValue.Sprint (Env.handOff 1) "A" noArgs (explicitLater 0)).heap[1]?.map Logger.out
      = some [⟨"INFO", "A", 1⟩] := by
  decide

/-- C3, amended.  In every reachable state, if the queue of the
process-wide logger holds exactly `cap` records and `cap` is at least 1
(or `cap` is 0, the worker is not parked at its receive and the
lazy-init guard has run), an emit of any level, message and arguments
returns having left every logger as it was (queue and sink unchanged,
record not added) and having only printed the "buffer full" diagnostic
that carries the dropped record. -/
theorem C3_drop_on_full {α : Type} (Sprint : α → String) (env : Env) (level : LogLevel)
    (msg : String) (args : List α) (g : Global) (p : Nat) (l : Logger)
    (hr : Reachable g) (hd : g.defaultLogger = some p) (hl : g.heap[p]? = some l)
    (hfull : l.logChan.length = l.cap)
    (hnp : 0 < l.cap ∨ (env.parked = false ∧ g.onceInit = true)) :
    log Sprint env level msg args g =
      { g with stdout := g.stdout ++
          [.bufferFull ⟨level, buildMessage Sprint msg args, env.now⟩] } ∧
    (log Sprint env level msg args g).heap = g.heap ∧
    (log Sprint env level msg args g).heap[p]? = some l := by
  have hg : g.onceInit = true := by
    rcases hnp with hc | hc
    · cases hgi : g.onceInit with
      | true => rfl
      | false =>
        have hm := List.getElem?_mem hl
        have he := hr.inv.guarded hgi l hm
        have hf := (hr.inv.loggers l hm).fifo
        rw [he] at hf
        have hq : l.logChan = [] := (List.append_eq_nil.mp hf).2
        rw [hq] at hfull
        simp at hfull
        omega
    · exact hc.2
  have hnp2 : 0 < l.cap ∨ env.parked = false := hnp.imp id (fun hc => hc.1)
  have h : log Sprint env level msg args g =
      { g with stdout := g.stdout ++
          [.bufferFull ⟨level, buildMessage Sprint msg args, env.now⟩] } := by
    unfold log
    simp [ensureInit_of_done hg, hd, hl, Logger.send_full env.parked env.writeOk _ hfull hnp2]
  rw [h]
  exact ⟨rfl, rfl, hl⟩

/-- Witness for C3: capacity 2 with A and B queued; a third emit is
dropped even if the environment reports the worker as parked. -/
theorem C3_drop_on_full_witness :
    twoQueued.heap[1]? = some twoQueuedLogger ∧
    twoQueuedLogger.logChan.length = twoQueuedLogger.cap ∧
    Error GoValue.Sprint (Env.handOff 3) "C" noArgs twoQueued =
      { twoQueued with stdout := twoQueued.stdout ++ [.bufferFull ⟨"ERROR", "C", 3⟩] } :=
  ⟨by decide, by decide,
    (C3_drop_on_full GoValue.Sprint (Env.handOff 3) ERROR "C" noArgs twoQueued 1
      twoQueuedLogger reachable_twoQueued (by decide) (by decide) (by decide)
      (Or.inl (by decide))).1⟩

/-- C4. In every reachable state and for every N ≥ 1, N calls of
`Shutdown` in a row leave the same state as one call (so the sink is
the same and nothing is written twice), and a call made after another
changes nothing; after the calls the latch of the process-wide logger
is done, `quit` has been closed exactly once, the worker has exited and
can take no further step.  When calls race with each other and with
the worker (nothing being emitted), the logger is, once the latch is
done, in the very state one call leaves.  Under every interleaving of
calls with all other steps, each logger has `quit` closed at most once,
and its latch is done (a call has returned, or may return) only when its
worker has exited. -/
theorem C4_idempotent_shutdown (writeOk : Nat → Bool) (g : Global) (hr : Reachable g)
    (N : Nat) (hN : 1 ≤ N) :
    (Shutdown writeOk)^[N] g = Shutdown writeOk g ∧
    (∀ w2, Shutdown w2 (Shutdown writeOk g) = Shutdown writeOk g) ∧
    (∀ (p : Nat) (l : Logger), g.defaultLogger = some p → g.heap[p]? = some l →
      (∃ l1, ((Shutdown writeOk)^[N] g).heap[p]? = some l1 ∧ l1.onceClose = .done ∧
        l1.worker = .exited ∧ l1.quit = true ∧ l1.closes = 1 ∧
        ∀ l2, ¬ Logger.WorkerStep l1 l2) ∧
      (∀ l3, Relation.ReflTransGen (Logger.QuietMove writeOk) l l3 → l3.onceClose = .done →
        (Shutdown writeOk g).heap[p]? = some l3)) ∧
    (∀ g2, Relation.ReflTransGen Step g g2 → ∀ l ∈ g2.heap,
      l.closes ≤ 1 ∧ (l.quit = true ↔ l.closes = 1) ∧
        (l.onceClose = .done → l.worker = .exited)) := by
  obtain ⟨n, rfl⟩ : ∃ n, N = n + 1 := ⟨N - 1, by omega⟩
  refine ⟨Shutdown_iterate writeOk g n, fun w2 => Shutdown_idem writeOk w2 g, ?_, ?_⟩
  · intro p l hd hl
    have hl1 := (Shutdown_lookup writeOk hd hl).2
    constructor
    · rw [Shutdown_iterate]
      have hc1 := Logger.onceCloseDo_latch writeOk l
      have hi : Logger.Inv (l.onceCloseDo writeOk) :=
        (hr.Shutdown writeOk).inv.loggers _ (List.getElem?_mem hl1)
      have hex := hi.doneExited hc1
      have hq := hi.enteredClosed (by simp [hc1])
      exact ⟨_, hl1, hc1, hex, hq.1, hq.2, fun l2 => Logger.no_step_after_exit hex⟩
    · intro l3 hrun hdone
      rw [hl1, Logger.quiet_final (hr.inv.loggers l (List.getElem?_mem hl)) hrun hdone]
  · intro g2 hs l hmem
    have hi : Logger.Inv l := (Global.inv_steps hr.inv hs).loggers l hmem
    refine ⟨?_, ?_, hi.doneExited⟩
    · cases hc : l.onceClose with
      | fresh => rw [(hi.freshOpen hc).2]; omega
      | running => rw [(hi.enteredClosed (by simp [hc])).2]
      | done => rw [(hi.enteredClosed (by simp [hc])).2]
    · cases hc : l.onceClose with
      | fresh => simp [(hi.freshOpen hc).1, (hi.freshOpen hc).2]
      | running => simp [(hi.enteredClosed (by simp [hc])).1, (hi.enteredClosed (by simp [hc])).2]
      | done => simp [(hi.enteredClosed (by simp [hc])).1, (hi.enteredClosed (by simp [hc])).2]

/-- Witness for C4: three calls after a first emit. -/
theorem C4_idempotent_shutdown_witness :
    (Shutdown allOk)^[3] afterFirstEmit = Shutdown allOk afterFirstEmit ∧
    ((Shutdown allOk)^[3] afterFirstEmit).heap[0]?.map Logger.out
      = some [⟨"INFO", "boot", 0⟩] :=
  ⟨(C4_idempotent_shutdown allOk afterFirstEmit reachable_afterFirstEmit 3 (by decide)).1,
    by decide⟩

/-- C5, evaluated on the code: after a successful explicit
`InitWithBufferSize(2)` the first emit runs the lazy initialisation all
the same: a second logger of capacity 100 is allocated, its worker is
started next to the first one, `defaultLogger` is moved to it and the
record is queued there, not in the logger of the explicit call. -/
theorem C5_emit_after_explicit_init_reinitialises :
    (explicitOnly 2).defaultLogger = some 0 ∧
    (explicitOnly 2).heap.map Logger.cap = [2] ∧
    (explicitOnly 2).onceInit = false ∧
    (Info GoValue.Sprint (Env.quiet 1) "A" noArgs (explicitOnly 2)).defaultLogger = some 1 ∧
    (Info GoValue.Sprint (Env.quiet 1) "A" noArgs (explicitOnly 2)).heap.map Logger.cap
      = [2, 100] ∧
    (Info GoValue.Sprint (Env.quiet 1) "A" noArgs (explicitOnly 2)).heap.map Logger.worker
      = [.selecting, .selecting] ∧
    (Info GoValue.Sprint (Env.quiet 1) "A" noArgs (explicitOnly 2)).heap.map Logger.logChan
      = [[], [⟨"INFO", "A", 1⟩]] := by
  decide

/-- C6. The record built by Info/Warn/Error(msg, a1..ak) has level
INFO/WARN/ERROR and its message is msg followed, for each argument in
order, by one space and the argument's rendering (exactly msg when there
are no arguments); it is the record that is sent or, on a full buffer,
reported as dropped.  Info("connected", 200) gives "connected 200". -/
theorem C6_record_content {α : Type} (Sprint : α → String) (env : Env) (msg : String)
    (args : List α) (g : Global) (p : Nat) (l : Logger)
    (hd : (ensureInit env.openErr g).defaultLogger = some p)
    (hl : (ensureInit env.openErr g).heap[p]? = some l) :
    buildMessage Sprint msg args = specMessage Sprint msg args ∧
    specMessage Sprint msg [] = msg ∧
    ((∃ l1, (Info Sprint env msg args g).heap[p]? = some l1 ∧
        l1.enqueued = l.enqueued ++ [⟨"INFO", specMessage Sprint msg args, env.now⟩]) ∨
      (Info Sprint env msg args g).stdout = (ensureInit env.openErr g).stdout ++
        [.bufferFull ⟨"INFO", specMessage Sprint msg args, env.now⟩]) ∧
    ((∃ l1, (Warn Sprint env msg args g).heap[p]? = some l1 ∧
        l1.enqueued = l.enqueued ++ [⟨"WARN", specMessage Sprint msg args, env.now⟩]) ∨
      (Warn Sprint env msg args g).stdout = (ensureInit env.openErr g).stdout ++
        [.bufferFull ⟨"WARN", specMessage Sprint msg args, env.now⟩]) ∧
    ((∃ l1, (Error Sprint env msg args g).heap[p]? = some l1 ∧
        l1.enqueued = l.enqueued ++ [⟨"ERROR", specMessage Sprint msg args, env.now⟩]) ∨
      (Error Sprint env msg args g).stdout = (ensureInit env.openErr g).stdout ++
        [.bufferFull ⟨"ERROR", specMessage Sprint msg args, env.now⟩]) ∧
    buildMessage GoValue.Sprint "connected" [GoValue.int 200] = "connected 200" := by
  refine ⟨buildMessage_eq_spec Sprint msg args, by simp [specMessage, specSuffix], ?_, ?_, ?_,
    by decide⟩
  · exact log_record Sprint env INFO msg args g p l hd hl
  · exact log_record Sprint env WARN msg args g p l hd hl
  · exact log_record Sprint env ERROR msg args g p l hd hl

/-- Witness for C6: Info("connected", 200) on a freshly loaded package
sends the record INFO "connected 200". -/
theorem C6_record_content_witness :
    (Info GoValue.Sprint (Env.quiet 7) "connected" [GoValue.int 200] Global.initial).heap[0]?.map
        Logger.enqueued = some [⟨"INFO", "connected 200", 7⟩] ∧
    buildMessage GoValue.Sprint "connected" [GoValue.int 200] =
      specMessage GoValue.Sprint "connected" [GoValue.int 200] :=
  ⟨by decide,
    (C6_record_content GoValue.Sprint (Env.quiet 7) "connected" [GoValue.int 200] Global.initial 0
      (newLogger 100).start (by decide) (by decide)).1⟩

/-- C7. Once the lazy-init guard has run and no logger exists, an emit
of any level, message and arguments only prints the "not initialized"
diagnostic: no logger is created, nothing is enqueued or written, the
guard stays consumed and the default logger stays absent. -/
theorem C7_degraded_mode {α : Type} (Sprint : α → String) (env : Env) (level : LogLevel)
    (msg : String) (args : List α) (g : Global) (hg : g.onceInit = true)
    (hn : g.defaultLogger = none) :
    log Sprint env level msg args g = { g with stdout := g.stdout ++ [.notInitialized] } ∧
    (log Sprint env level msg args g).heap = g.heap ∧
    (log Sprint env level msg args g).onceInit = true ∧
    (log Sprint env level msg args g).defaultLogger = none := by
  have h : log Sprint env level msg args g =
      { g with stdout := g.stdout ++ [.notInitialized] } := by
    unfold log
    simp [ensureInit_of_done hg, hn]
  rw [h]
  exact ⟨rfl, rfl, hg, hn⟩

/-- Witness for C7: the state left by a first emit whose lazy
initialisation failed is degraded, and a further emit only prints. -/
theorem C7_degraded_mode_witness :
    afterFailedInit.onceInit = true ∧ afterFailedInit.defaultLogger = none ∧
    afterFailedInit.heap = [] ∧
    Warn GoValue.Sprint (Env.quiet 1) "late" noArgs afterFailedInit =
      { afterFailedInit with stdout := afterFailedInit.stdout ++ [.notInitialized] } :=
  ⟨by decide, by decide, by decide,
    (C7_degraded_mode GoValue.Sprint (Env.quiet 1) WARN "late" noArgs afterFailedInit
      (by decide) (by decide)).1⟩

/-- C8. Let the logger that a sequence of n emits addresses (the
process-wide logger when the first of them reaches its send) have any
capacity and an empty buffer, and let the emits be made while the worker
takes no step.  Then exactly the first min(n, capacity) records are
queued, in order, the sink is untouched and each later record is
reported as dropped.  If the buffer is then emptied with successful
writes (every `Encode` call of the run writes its record; or the encoder
holds no earlier write error and the writer accepts every write), by
worker steps alone or by `Shutdown`, the sink holds what it held before
followed by exactly those first records, in order. -/
theorem C8_overflow {α : Type} (Sprint : α → String) (calls : List (Call α)) (g : Global)
    (p : Nat) (l : Logger) (hd : (burstStart calls g).defaultLogger = some p)
    (hl : (burstStart calls g).heap[p]? = some l) (hempty : l.logChan = [])
    (hq : ∀ c ∈ calls, c.env.parked = false) :
    ∃ l1, (emitAll Sprint calls g).heap[p]? = some l1 ∧
      l1.logChan = (calls.map (Call.entry Sprint)).take l.cap ∧
      l1.logChan.length = min calls.length l.cap ∧
      l1.out = l.out ∧
      (emitAll Sprint calls g).stdout = (burstStart calls g).stdout ++
        ((calls.map (Call.entry Sprint)).drop l.cap).map Diagnostic.bufferFull ∧
      (∀ writeOk l2, Relation.ReflTransGen (Logger.WorkerStepW writeOk) l1 l2 →
        l2.logChan = [] → (∀ a ∈ l2.attempts.drop l.attempts.length, a.2 = true) →
        l2.out = l.out ++ (calls.map (Call.entry Sprint)).take l.cap) ∧
      (l.encErr = false → ∀ l2, Relation.ReflTransGen (Logger.WorkerStepW allOk) l1 l2 →
        l2.logChan = [] → l2.out = l.out ++ (calls.map (Call.entry Sprint)).take l.cap) ∧
      (l.worker = .selecting → l.onceClose = .fresh →
        ∃ l3, (Shutdown allOk (emitAll Sprint calls g)).heap[p]? = some l3 ∧
          l3.worker = .exited ∧ l3.logChan = [] ∧
          (l.encErr = false →
            l3.out = l.out ++ (calls.map (Call.entry Sprint)).take l.cap)) := by
  have he := emitAll_quiet Sprint calls (burstStart calls g) p l
    (burstStart_onceInit calls g) hd hl hq
  rw [emitAll_burstStart, hempty] at he
  simp only [List.length_nil, Nat.sub_zero] at he
  have hl1 : (emitAll Sprint calls g).heap[p]? =
      some (l.pushMany ((calls.map (Call.entry Sprint)).take l.cap)) := by
    rw [he]
    simp [List.getElem?_set_self (heap_lookup_lt hl)]
  have hchan : (l.pushMany ((calls.map (Call.entry Sprint)).take l.cap)).logChan =
      (calls.map (Call.entry Sprint)).take l.cap := by
    simp [Logger.pushMany, hempty]
  refine ⟨_, hl1, hchan, ?_, rfl, ?_, ?_, ?_, ?_⟩
  · rw [hchan]
    simp [Nat.min_comm]
  · rw [he]
  · intro writeOk l2 hrun hdone hok
    have := Logger.runs_all_written hrun hdone (by simpa [Logger.pushMany] using hok)
    rw [hchan] at this
    simpa [Logger.pushMany] using this
  · intro henc l2 hrun hdone
    have := Logger.runs_allOk hrun (by simpa [Logger.pushMany] using henc)
    rw [hdone, hchan] at this
    simpa [Logger.pushMany] using this
  · intro hw hf
    have hd1 : (emitAll Sprint calls g).defaultLogger = some p := by rw [he]; exact hd
    obtain ⟨l3, h3, hw3, hc3, ho3, _⟩ := Shutdown_running allOk (emitAll Sprint calls g) p _ hd1 hl1
      (by simpa [Logger.pushMany] using hf) (Or.inl (by simpa [Logger.pushMany] using hw))
    refine ⟨l3, h3, hw3, hc3, fun henc => ?_⟩
    have henc1 : (l.pushMany ((calls.map (Call.entry Sprint)).take l.cap)).encErr = false := by
      simpa [Logger.pushMany] using henc
    rw [ho3, henc1, (outcomes_all_ok allOk (fun _ => rfl) _ _).1, hchan]
    simp [Logger.pushMany]

/-- Witness for C8: capacity 2 and emits A, B, C; after `Shutdown` the sink is [A, B]. -/
theorem C8_overflow_witness :
    (Shutdown allOk (emitAll GoValue.Sprint burstABC (explicitLater 2))).heap[1]?.map Logger.out
      = some [⟨"INFO", "A", 1⟩, ⟨"INFO", "B", 2⟩] ∧
    (emitAll GoValue.Sprint burstABC (explicitLater 2)).stdout
      = [.bufferFull ⟨"INFO", "C", 3⟩] ∧
    ∃ l1, (emitAll GoValue.Sprint burstABC (explicitLater 2)).heap[1]? = some l1 ∧
      l1.logChan = (burstABC.map (Call.entry GoValue.Sprint)).take 2 :=
  ⟨by decide, by decide,
    (C8_overflow GoValue.Sprint burstABC (explicitLater 2) 1 (newLogger 2).start
      (by decide) (by decide) (by decide) (by decide)).imp
      (fun _ h => ⟨h.1, h.2.1⟩)⟩

/-- C9, counterexample.  A, B, C are queued, `quit` is closed and only
the write of the second record fails.  The worker runs to its exit and
the sink holds A alone, while the records whose write succeeds in that
pattern are A and C: C reaches `Encode` after the encoder has kept the
error of B, and is not written. -/
theorem C9_counterexample_later_record_lost :
    Relation.ReflTransGen (Logger.WorkerStepW secondFails)
      ({ threeQueued with quit := true } : Logger)
      (({ threeQueued with quit := true } : Logger).runToExit secondFails) ∧
    (({ threeQueued with quit := true } : Logger).runToExit secondFails).worker = .exited ∧
    (({ threeQueued with quit := true } : Logger).runToExit secondFails).out =
      [⟨"INFO", "A", 1⟩] ∧
    written (patternOutcomes secondFails 0 threeQueued.logChan) =
      [⟨"INFO", "A", 1⟩, ⟨"ERROR", "C", 3⟩] ∧
    (({ threeQueued with quit := true } : Logger).runToExit secondFails).out ≠
      written (patternOutcomes secondFails 0 threeQueued.logChan) :=
  ⟨Logger.runToExit_steps secondFails _ (by decide), by decide, by decide, by decide, by decide⟩

/-- C9, amended.  For a worker at its `select`, any buffer contents and
any pattern of failing writes: receiving a record makes exactly one
`Encode` call for it, removes it from the buffer whether or not it was
written, writes it to the sink only when the encoder holds no earlier
write error and the write succeeds, makes the encoder keep the error
otherwise, and leaves the worker at its `select` ready for the next
record; while `quit` is open no worker step leaves the `select` loop;
and any run of the worker that empties the buffer, as well as the run to
exit after `quit` is closed, has made one `Encode` call per buffered
record, in buffer order, and has added to the sink exactly the records
in front of the first failed write, in that order, and nothing at all
when the encoder already held an error. -/
theorem C9_write_failure_swallowed (writeOk : Nat → Bool) (l : Logger)
    (hw : l.worker = .selecting) :
    (∀ entry rest ok, l.logChan = entry :: rest →
      ∃ l1, l.recvBranch ok = some l1 ∧ l1.logChan = rest ∧
        l1.attempts = l.attempts ++ [(entry, !l.encErr && ok)] ∧
        l1.out = (if (!l.encErr && ok) = true then l.out ++ [entry] else l.out) ∧
        l1.encErr = (l.encErr || !ok) ∧ l1.worker = .selecting) ∧
    (l.quit = false → ∀ l1, Logger.WorkerStep l l1 → l1.worker = .selecting) ∧
    (∀ l1, Relation.ReflTransGen (Logger.WorkerStepW writeOk) l l1 → l1.logChan = [] →
      l1.attempts = l.attempts ++ outcomes writeOk l.encErr l.attempts.length l.logChan ∧
      l1.attempts.map Prod.fst = l.attempts.map Prod.fst ++ l.logChan ∧
      l1.out = l.out ++
        (if l.encErr = true then [] else acceptedPrefix writeOk l.attempts.length l.logChan)) ∧
    (l.quit = true →
      Relation.ReflTransGen (Logger.WorkerStepW writeOk) l (l.runToExit writeOk) ∧
      (l.runToExit writeOk).worker = .exited ∧ (l.runToExit writeOk).logChan = [] ∧
      ∀ l1, Relation.ReflTransGen (Logger.WorkerStepW writeOk) l l1 → l1.worker = .exited →
        l1 = l.runToExit writeOk) := by
  refine ⟨?_, fun hq l1 hs => Logger.stays_selecting hw hq hs, ?_, ?_⟩
  · intro entry rest ok hc
    refine ⟨Logger.Encode ok entry { l with logChan := rest }, ?_, by simp, ?_, ?_, ?_, ?_⟩
    · simp [Logger.recvBranch, hw, hc]
    · rw [Logger.Encode_eq]
    · rw [Logger.Encode_eq]
    · rw [Logger.Encode_eq]
    · simpa using hw
  · intro l1 hrun hdone
    have h1 := Logger.runs_conserve_attempts hrun
    have h2 := Logger.runs_conserve hrun
    rw [hdone] at h1 h2
    simp only [outcomes, written, List.append_nil, List.filter_nil, List.map_nil] at h1 h2
    refine ⟨h1, ?_, ?_⟩
    · rw [h1, List.map_append, outcomes_fst]
    · rw [h2]
      exact congrArg _ (written_outcomes writeOk l.encErr l.attempts.length l.logChan)
  · intro hq
    have hrun := Logger.runToExit_running writeOk l hq (Or.inl hw)
    refine ⟨Logger.runToExit_steps writeOk l hq, by rw [hrun], by rw [hrun], ?_⟩
    intro l1 hs he
    exact Logger.runToExit_unique hs hq he

/-- Witness for C9: A, B, C buffered and the second write fails; the sink gets A alone. -/
theorem C9_write_failure_swallowed_witness :
    ({ threeQueued with quit := true } : Logger).runToExit secondFails =
      { threeQueued with
        quit := true
        logChan := []
        worker := .exited
        encErr := true
        out := [⟨"INFO", "A", 1⟩]
        attempts := [(⟨"INFO", "A", 1⟩, true), (⟨"WARN", "B", 2⟩, false),
          (⟨"ERROR", "C", 3⟩, false)] } ∧
    (({ threeQueued with quit := true } : Logger).runToExit secondFails).worker = .exited :=
  ⟨by decide,
    ((C9_write_failure_swallowed secondFails { threeQueued with quit := true }
      (by decide)).2.2.2 (by decide)).2.1⟩

/-- C10, counterexample.  After an explicit `InitWithBufferSize(2)` and
a `Shutdown` that has returned (worker exited, latch done), the lazy-init
guard is still fresh: an emit "late" builds a new logger, makes it the
process-wide one and queues the record there, and a step of the new
worker writes it to the sink. -/
theorem C10_counterexample_late_record_written :
    Reachable lateWritten ∧
    explicitShutdown.defaultLogger = some 0 ∧
    explicitShutdown.heap.map (fun l => (l.worker, l.onceClose)) = [(.exited, .done)] ∧
    explicitShutdown.onceInit = false ∧
    lateEmit.defaultLogger = some 1 ∧
    lateEmit.heap[1]? = some lateLogger ∧
    lateLogger.logChan = [⟨"INFO", "late", 9⟩] ∧
    lateEmit.stdout = [] ∧
    Step lateEmit lateWritten ∧
    lateWritten.heap.map Logger.out = [[], [⟨"INFO", "late", 9⟩]] :=
  ⟨(reachable_explicitShutdown.tail
      (Step.emit GoValue.Sprint (Env.quiet 9) INFO "late" noArgs explicitShutdown)).tail
      step_lateWritten,
    by decide, by decide, by decide, by decide, by decide, by decide, by decide,
    step_lateWritten, by decide⟩

/-- C10, amended.  Let the worker of the logger an emit addresses (the
process-wide logger when `log` reaches its send, after `ensureInit`)
have returned, as it has once `Shutdown` has returned and the emit does
not initialise the package anew.  Then the emit, whatever its level,
message and arguments, changes no logger's sink; if the buffer has room
the send is taken whatever the state of `quit`: the record is appended
to the buffer and no "buffer full" line is printed; and whatever steps
follow (emits, worker steps, shutdown calls, initialisations), the
worker of that logger stays returned, its sink stays as it was and the
record stays in its buffer. -/
theorem C10_emit_after_shutdown {α : Type} (Sprint : α → String) (env : Env)
    (level : LogLevel) (msg : String) (args : List α) (g : Global) (p : Nat) (l : Logger)
    (hd : (ensureInit env.openErr g).defaultLogger = some p)
    (hl : (ensureInit env.openErr g).heap[p]? = some l) (hex : l.worker = .exited) :
    (∀ q : Nat, (log Sprint env level msg args g).heap[q]?.map Logger.out =
        g.heap[q]?.map Logger.out) ∧
    (l.logChan.length < l.cap →
      log Sprint env level msg args g =
        { ensureInit env.openErr g with heap :=
            (g.heap.set p (l.push ⟨level, buildMessage Sprint msg args, env.now⟩)) }) ∧
    (∀ g2, Relation.ReflTransGen Step (log Sprint env level msg args g) g2 →
      ∃ l2, g2.heap[p]? = some l2 ∧ l2.worker = .exited ∧ l2.out = l.out ∧
        (l.logChan.length < l.cap →
          (l.logChan ++ [⟨level, buildMessage Sprint msg args, env.now⟩]) <+: l2.logChan)) := by
  obtain ⟨hheap, _, hl0⟩ := ensureInit_exited hd hl hex
  have hstep : Step g (log Sprint env level msg args g) := Step.emit Sprint env level msg args g
  obtain ⟨l1, hl1, hor⟩ := Step.frame_logger hstep hl0
  have hfro : l1.worker = .exited ∧ l1.out = l.out ∧ l1.attempts = l.attempts ∧
      l.logChan <+: l1.logChan := by
    rcases hor with he | hm
    · subst he
      exact ⟨hex, rfl, rfl, List.prefix_refl _⟩
    · exact Logger.frozen_move hm hex
  have hroom : l.logChan.length < l.cap →
      log Sprint env level msg args g =
        { ensureInit env.openErr g with heap :=
            (g.heap.set p (l.push ⟨level, buildMessage Sprint msg args, env.now⟩)) } := by
    intro hr
    rw [← hheap]
    unfold log
    simp only [hd, hl, Logger.send_exited env.parked env.writeOk _ hex hr]
  refine ⟨?_, hroom, ?_⟩
  · intro q
    by_cases hqp : q = p
    · subst hqp
      rw [hl1, hl0]
      simp [hfro.2.1]
    · rcases log_outcome Sprint env level msg args g p l hd hl with ⟨l3, _, he⟩ | ⟨_, he⟩
      · rw [he]
        simp [List.getElem?_set_ne (Ne.symm hqp), hheap]
      · rw [he]
        simp [hheap]
  · intro g2 hs
    obtain ⟨l2, hl2, hm⟩ := Steps.follow_logger hs hl1
    obtain ⟨k1, k2, _, k4⟩ := Logger.frozen_moves hm hfro.1
    refine ⟨l2, hl2, k1, k2.trans hfro.2.1, ?_⟩
    intro hr
    have hl1eq := hl1
    rw [hroom hr] at hl1eq
    simp [List.getElem?_set_self (heap_lookup_lt hl0)] at hl1eq
    rw [← hl1eq] at k4
    exact k4

/-- Witness for C10: after the first emit and a completed `Shutdown`, a
late emit is queued without any diagnostic and the sink stays as it was. -/
theorem C10_emit_after_shutdown_witness :
    afterShutdown.heap[0]? = some shutLogger ∧ shutLogger.worker = .exited ∧
    Info GoValue.Sprint (Env.quiet 9) "late" noArgs afterShutdown =
      { afterShutdown with heap :=
          (afterShutdown.heap.set 0 (shutLogger.push ⟨"INFO", "late", 9⟩)) } :=
  ⟨by decide, by decide,
    (C10_emit_after_shutdown GoValue.Sprint (Env.quiet 9) INFO "late" noArgs afterShutdown 0
      shutLogger (by decide) (by decide) (by decide)).2.1 (by decide)⟩

end AsyncLogger
